import Mathlib

/-!
Verification of the ic-sft semi-fungible-token ledger.

This file gives a shallow embedding, in Lean 4, of the core data model and
operations of the ic-sft canister (store.rs, schema.rs, api_icrc7.rs,
api_icrc37.rs, api_sft_update.rs, and the ic-sft-types crate), and settles a
list of claims about that code.

Modelling conventions:
* `u32`/`u64` values are embedded as `Nat`; wrapping or saturating arithmetic
  is made explicit (`% 2^32`, `min _ (2^32 - 1)`) exactly where the source
  uses casts or `saturating_add`/`saturating_sub`.
* `Principal` is an abstract identity; it is embedded as `Nat`, with the
  anonymous principal as the distinguished value `ANONYMOUS`.
* Rust `BTreeMap` values are embedded as key-sorted association lists with
  `sget` / `sinsert` / `sremove` mirroring `get` / `insert` / `remove`;
  iteration order (ascending keys) matters for the pagination claims, so
  sortedness is carried as an explicit well-formedness hypothesis where a
  theorem needs it.
* Fallible operations return `Except`; Rust `Vec` index-assignment, which
  panics when out of bounds, is embedded as an `Option`-valued update
  (`none` = panic).
* The content hash of a block (`ICRC3Value::hash` from the external
  `icrc-ledger-types` crate, outside this repository) is treated as a
  parameter `hashF : BlockV → Hash`; every chain theorem is proved for an
  arbitrary hash function.
-/

/-- Principals are opaque identities; embedded as `Nat`. -/
abbrev Principal := Nat

/-- `Principal::anonymous()`, the distinguished anonymous caller. -/
def ANONYMOUS : Principal := 0

/-- Modelled from the spec: the constant `SECOND` (nanoseconds per second)
used to convert the ledger's nanosecond call-time to seconds; its defining
line (in the crate root) is not among the provided sources. -/
def SECOND : Nat := 1000000000

/-- `2^32`, the number of `u32` values. -/
def U32SIZE : Nat := 4294967296

/-- `u32::MAX`. -/
def U32MAX : Nat := 4294967295

/-- `u32` saturating addition (`a.saturating_add(b)`). -/
def u32satAdd (a b : Nat) : Nat := min (a + b) U32MAX

/-- `SftId(pub u32, pub u32)`: a (token-group id, sub-item id) pair. -/
structure SftId where
  tokenId : Nat
  sid : Nat
deriving Repr, DecidableEq

/-- `SftId::MIN = SftId(1, 1)`. -/
def SftId.MIN : SftId := ⟨1, 1⟩

/-- `SftId::token_index`: `self.0.saturating_sub(1)`. -/
def SftId.token_index (id : SftId) : Nat := id.tokenId - 1

/-- `SftId::to_u64`: `(self.0 as u64) << 32 | self.1 as u64`; for
`self.1 < 2^32` the bit-or of disjoint ranges is addition. -/
def SftId.to_u64 (id : SftId) : Nat := id.tokenId * U32SIZE + id.sid

/-- `From<u64> for SftId`: `((id >> 32) as u32, (id & u32::MAX as u64) as u32)`. -/
def SftId.from_u64 (n : Nat) : SftId := ⟨n / U32SIZE, n % U32SIZE⟩

/-- `SftId::next`: same group, sub-item id saturating-incremented. -/
def SftId.next (id : SftId) : SftId := ⟨id.tokenId, u32satAdd id.sid 1⟩

/-- `nat_to_u64`: `nat.0.to_u64().unwrap_or(0)`. -/
def nat_to_u64 (n : Nat) : Nat := if n < 18446744073709551616 then n else 0

/-- `TransferError` (ic-sft-types/src/icrc7.rs). -/
inductive TransferError where
  | NonExistingTokenId
  | InvalidRecipient
  | Unauthorized
  | TooOld
  | CreatedInFuture (ledger_time : Nat)
  | Duplicate (duplicate_of : Nat)
  | GenericError (error_code : Nat) (message : String)
  | GenericBatchError (error_code : Nat) (message : String)
deriving Repr, DecidableEq

/-- `TransferFromError` (ic-sft-types/src/icrc37.rs). -/
inductive TransferFromError where
  | NonExistingTokenId
  | InvalidRecipient
  | Unauthorized
  | TooOld
  | CreatedInFuture (ledger_time : Nat)
  | Duplicate (duplicate_of : Nat)
  | GenericError (error_code : Nat) (message : String)
  | GenericBatchError (error_code : Nat) (message : String)
deriving Repr, DecidableEq

/-- `ApproveTokenError` (ic-sft-types/src/icrc37.rs). -/
inductive ApproveTokenError where
  | InvalidSpender
  | Unauthorized
  | NonExistingTokenId
  | TooOld
  | CreatedInFuture (ledger_time : Nat)
  | GenericError (error_code : Nat) (message : String)
  | GenericBatchError (error_code : Nat) (message : String)
deriving Repr, DecidableEq

/-- `ApproveCollectionError` (ic-sft-types/src/icrc37.rs). -/
inductive ApproveCollectionError where
  | InvalidSpender
  | TooOld
  | CreatedInFuture (ledger_time : Nat)
  | GenericError (error_code : Nat) (message : String)
  | GenericBatchError (error_code : Nat) (message : String)
deriving Repr, DecidableEq

/-- `RevokeTokenApprovalError` (ic-sft-types/src/icrc37.rs). -/
inductive RevokeTokenApprovalError where
  | ApprovalDoesNotExist
  | Unauthorized
  | NonExistingTokenId
  | TooOld
  | CreatedInFuture (ledger_time : Nat)
  | GenericError (error_code : Nat) (message : String)
  | GenericBatchError (error_code : Nat) (message : String)
deriving Repr, DecidableEq

/-- `RevokeCollectionApprovalError` (ic-sft-types/src/icrc37.rs). -/
inductive RevokeCollectionApprovalError where
  | ApprovalDoesNotExist
  | TooOld
  | CreatedInFuture (ledger_time : Nat)
  | GenericError (error_code : Nat) (message : String)
  | GenericBatchError (error_code : Nat) (message : String)
deriving Repr, DecidableEq

/-- `MintError` (ic-sft-types/src/lib.rs). -/
inductive MintError where
  | NonExistingTokenId
  | SupplyCapReached
  | GenericBatchError (error_code : Nat) (message : String)
deriving Repr, DecidableEq

/-! ### Sorted association lists, embedding Rust `BTreeMap` -/

/-- `BTreeMap::get`, on an association list. -/
def sget {α : Type} (m : List (Nat × α)) (k : Nat) : Option α :=
  match m with
  | [] => none
  | (k0, v0) :: rest => if k0 = k then some v0 else sget rest k

/-- `BTreeMap::insert`, keeping keys sorted ascending. -/
def sinsert {α : Type} (m : List (Nat × α)) (k : Nat) (v : α) : List (Nat × α) :=
  match m with
  | [] => [(k, v)]
  | (k0, v0) :: rest =>
    if k < k0 then (k, v) :: (k0, v0) :: rest
    else if k0 = k then (k, v) :: rest
    else (k0, v0) :: sinsert rest k v

/-- `BTreeMap::remove` (value-dropping form). -/
def sremove {α : Type} (m : List (Nat × α)) (k : Nat) : List (Nat × α) :=
  match m with
  | [] => []
  | (k0, v0) :: rest => if k0 = k then rest else (k0, v0) :: sremove rest k

/-- Keys of an association list (`BTreeMap::keys`). -/
def skeys {α : Type} (m : List (Nat × α)) : List Nat := m.map Prod.fst

theorem sget_sinsert_self {α : Type} (m : List (Nat × α)) (k : Nat) (v : α) :
    sget (sinsert m k v) k = some v := by
  induction m with
  | nil => simp [sinsert, sget]
  | cons p rest ih =>
    obtain ⟨k0, v0⟩ := p
    by_cases h1 : k < k0
    · simp [sinsert, h1, sget]
    · by_cases h2 : k0 = k
      · simp [sinsert, h1, h2, sget]
      · have h3 : k0 ≠ k := h2
        simp [sinsert, h1, h2, sget, h3, ih]

theorem sget_sinsert_other {α : Type} (m : List (Nat × α)) (k k2 : Nat) (v : α)
    (hne : k ≠ k2) : sget (sinsert m k v) k2 = sget m k2 := by
  induction m with
  | nil => simp [sinsert, sget, hne]
  | cons p rest ih =>
    obtain ⟨k0, v0⟩ := p
    by_cases h1 : k < k0
    · simp [sinsert, h1, sget, hne]
    · by_cases h2 : k0 = k
      · subst h2
        simp [sinsert, h1, sget, hne]
      · simp [sinsert, h1, h2, sget, ih]

theorem sget_sremove_other {α : Type} (m : List (Nat × α)) (k k2 : Nat)
    (hne : k ≠ k2) : sget (sremove m k) k2 = sget m k2 := by
  induction m with
  | nil => simp [sremove, sget]
  | cons p rest ih =>
    obtain ⟨k0, v0⟩ := p
    by_cases h2 : k0 = k
    · subst h2
      simp [sremove, sget, hne]
    · simp [sremove, h2, sget, ih]

/-! ### Store entity model (store.rs) -/

/-- `Approvals(BTreeMap<Principal, (u64, u64)>)`: spender to
(created_at_seconds, expires_at_seconds); `0` expiry means "none". -/
abbrev Approvals := List (Principal × (Nat × Nat))

/-- `Approvals::get`. -/
def Approvals.get (a : Approvals) (spender : Principal) : Option (Nat × Nat) :=
  sget a spender

/-- `Approvals::insert`. -/
def Approvals.insert (a : Approvals) (spender : Principal)
    (create_at_sec exp_sec : Nat) : Approvals :=
  sinsert a spender (create_at_sec, exp_sec)

/-- `Approvals::total`. -/
def Approvals.total (a : Approvals) : Nat := a.length

/-- `Holders(Vec<Principal>)`: one token group's ordered holder list. -/
abbrev Holders := List Principal

/-- `Holders::total`. -/
def Holders.total (hs : Holders) : Nat := hs.length

/-- `Holders::get`: `self.0.get(sid as usize)` — note the index used is the
sub-item id itself, with no `- 1`. -/
def Holders.get (hs : Holders) (sid : Nat) : Option Principal := hs.get? sid

/-- `Holders::is_holder`. -/
def Holders.is_holder (hs : Holders) (sid : Nat) (account : Principal) : Bool :=
  match hs.get? sid with
  | some holder => holder = account
  | none => false

/-- `Holders::append`. -/
def Holders.push (hs : Holders) (account : Principal) : Holders := hs ++ [account]

/-- `Holders::transfer_to`: in-place replace at index `sid`, checked against
the current holder. -/
def Holders.transfer_to (hs : Holders) (fromP toP : Principal) (sid : Nat) :
    Except TransferError Holders :=
  match hs.get? sid with
  | none => .error .NonExistingTokenId
  | some holder =>
    if holder ≠ fromP then .error .Unauthorized
    else .ok (hs.set sid toP)

/-- `Holders::transfer_from`: same replacement, `TransferFromError` flavour. -/
def Holders.transfer_from (hs : Holders) (fromP toP : Principal) (sid : Nat) :
    Except TransferFromError Holders :=
  match hs.get? sid with
  | none => .error .NonExistingTokenId
  | some holder =>
    if holder ≠ fromP then .error .Unauthorized
    else .ok (hs.set sid toP)

/-- `HolderTokens(BTreeMap<u32, BTreeMap<u32, Option<Approvals>>>)`. -/
abbrev HolderTokens := List (Nat × List (Nat × Option Approvals))

/-- `HolderTokens::balance_of`. -/
def HolderTokens.balance_of (ht : HolderTokens) : Nat :=
  (ht.map (fun p => p.snd.length)).sum

/-- `HolderTokens::token_ids`. -/
def HolderTokens.token_ids (ht : HolderTokens) : List Nat := skeys ht

/-- `HolderTokens::get_sids`. -/
def HolderTokens.get_sids (ht : HolderTokens) (tid : Nat) : Option (List Nat) :=
  (sget ht tid).map skeys

/-- `HolderTokens::clear_for_transfer`: remove `sid` from group `tid`, drop
the group when it becomes empty, and return (new map, `self.0.len()`). -/
def HolderTokens.clear_for_transfer (ht : HolderTokens) (tid sid : Nat) :
    HolderTokens × Nat :=
  match sget ht tid with
  | some records =>
    let records2 := sremove records sid
    let ht2 := if records2.isEmpty then sremove ht tid else sinsert ht tid records2
    (ht2, ht2.length)
  | none => (ht, ht.length)

/-- `HolderTokens::get_approvals`. -/
def HolderTokens.get_approvals (ht : HolderTokens) (tid sid : Nat) :
    Option Approvals :=
  match sget ht tid with
  | some records => (sget records sid).bind id
  | none => none

/-- `HolderTokens::insert_approvals`: store a token-level approval, bounded
by `max_approvals`. -/
def HolderTokens.insert_approvals (ht : HolderTokens) (max_approvals : Nat)
    (tid sid : Nat) (spender : Principal) (create_at_sec exp_sec : Nat) :
    HolderTokens × Except ApproveTokenError Unit :=
  match sget ht tid with
  | none => (ht, .error .NonExistingTokenId)
  | some records =>
    match sget records sid with
    | none => (ht, .error .NonExistingTokenId)
    | some none =>
      let approvals := Approvals.insert [] spender create_at_sec exp_sec
      (sinsert ht tid (sinsert records sid (some approvals)), .ok ())
    | some (some approvals) =>
      if max_approvals ≤ approvals.total then
        (ht, .error (.GenericBatchError 0 "exceeds the maximum number of approvals"))
      else
        (sinsert ht tid
          (sinsert records sid (some (approvals.insert spender create_at_sec exp_sec))),
         .ok ())

/-- `HolderTokens::revoke`: revoke the approval(s) on sub-item (`tid`,`sid`).
The `spender = None` branch overwrites the approval set with `None` and then
falls through to the trailing `Err(NonExistingTokenId)` — the mutation and
the returned error are both faithful to the source. -/
def HolderTokens.revoke (ht : HolderTokens) (tid sid : Nat)
    (spender : Option Principal) : HolderTokens × Except RevokeTokenApprovalError Unit :=
  match sget ht tid with
  | none => (ht, .error .NonExistingTokenId)
  | some records =>
    match sget records sid with
    | none => (ht, .error .NonExistingTokenId)
    | some approvalsOpt =>
      match spender with
      | some s =>
        match approvalsOpt with
        | some approvals =>
          if (sget approvals s).isNone then (ht, .error .ApprovalDoesNotExist)
          else (sinsert ht tid (sinsert records sid (some (sremove approvals s))), .ok ())
        | none => (ht, .error .ApprovalDoesNotExist)
      | none =>
        (sinsert ht tid (sinsert records sid none), .error .NonExistingTokenId)

/-! ### Store modules keyed by principal (store.rs `holder_tokens`, `approvals`) -/

/-- The `HOLDER_TOKENS` region: principal to `HolderTokens`. -/
abbrev HolderTokensMap := List (Principal × HolderTokens)

/-- The `HOLDER_APPROVALS` region: owner principal to collection `Approvals`. -/
abbrev ApprovalsMap := List (Principal × Approvals)

/-- The `HOLDERS` region: token-group id to `Holders`. -/
abbrev HoldersMap := List (Nat × Holders)

/-- `holder_tokens::is_approved`: token-level approval check; the stored
expiry must be strictly greater than `now_sec`. -/
def holder_tokens.is_approved (r : HolderTokensMap) (fromP spender : Principal)
    (tid sid : Nat) (now_sec : Nat) : Bool :=
  match sget r fromP with
  | some tokens =>
    match sget tokens tid with
    | some records =>
      match sget records sid with
      | some (some approvals) =>
        match sget approvals spender with
        | some (_, expire_at) => now_sec < expire_at
        | none => false
      | _ => false
    | none => false
  | none => false

/-- `holder_tokens::update_for_transfer`: maintain the reverse index for a
transfer of (`tid`,`sid`) — clear it under `fromP`, add it under `toP`. -/
def holder_tokens.update_for_transfer (r : HolderTokensMap)
    (fromP toP : Principal) (tid sid : Nat) : HolderTokensMap :=
  let r1 :=
    match sget r fromP with
    | some tokens =>
      let cleared := HolderTokens.clear_for_transfer tokens tid sid
      if cleared.snd = 0 then sremove r fromP else sinsert r fromP cleared.fst
    | none => r
  let tokens := (sget r1 toP).getD []
  let tokens2 := sinsert tokens tid (sinsert ((sget tokens tid).getD []) sid none)
  sinsert r1 toP tokens2

/-- `approvals::is_approved`: collection-level approval check; the stored
expiry must be strictly greater than `now_sec`. -/
def approvals.is_approved (r : ApprovalsMap) (fromP spender : Principal)
    (now_sec : Nat) : Bool :=
  match sget r fromP with
  | some approvals =>
    match sget approvals spender with
    | some (_, expire_at) => now_sec < expire_at
    | none => false
  | none => false

/-- The transfer-from authorization test used by `icrc37_transfer_from`
(api_icrc37.rs lines 476-477): a collection-level or a token-level approval. -/
def transfer_from_authorized (r : ApprovalsMap) (ht : HolderTokensMap)
    (fromP caller : Principal) (tid sid now_sec : Nat) : Bool :=
  approvals.is_approved r fromP caller now_sec ||
    holder_tokens.is_approved ht fromP caller tid sid now_sec

/-! ### Validation layer (store.rs `Settings`, schema.rs) -/

/-- `Settings` (store.rs). -/
structure Settings where
  max_query_batch_size : Nat
  max_update_batch_size : Nat
  default_take_value : Nat
  max_take_value : Nat
  max_memo_size : Nat
  atomic_batch_transfers : Bool
  tx_window : Nat
  permitted_drift : Nat
  max_approvals_per_token_or_collection : Nat
  max_revoke_approvals : Nat
deriving Repr, DecidableEq

/-- `Account` (icrc-ledger-types): owner principal plus optional subaccount;
the subaccount payload (32 raw bytes) is embedded as a byte list. -/
structure Account where
  owner : Principal
  subaccount : Option (List Nat)
deriving Repr, DecidableEq

/-- `TransferArg` (ic-sft-types/src/icrc7.rs); `memo` is a byte buffer. -/
structure TransferArg where
  from_subaccount : Option (List Nat)
  toA : Account
  token_id : Nat
  memo : Option (List Nat)
  created_at_time : Option Nat
deriving Repr, DecidableEq

/-- `TransferArg::validate` (schema.rs lines 20-59). `now` is the raw
nanosecond ledger time; the second-denominated settings are scaled by
`SECOND` in the comparisons, and the `u64` subtraction
`now - (tx_window + permitted_drift) * SECOND` is embedded as truncated
`Nat` subtraction (the source assumes it does not underflow). -/
def TransferArg.validate (arg : TransferArg) (now : Nat) (caller : Principal)
    (settings : Settings) : Except TransferError Unit :=
  if arg.from_subaccount.isSome || arg.toA.subaccount.isSome then
    .error (.GenericError 0 "subaccount is not supported")
  else if arg.toA.owner = ANONYMOUS || arg.toA.owner = caller then
    .error .InvalidRecipient
  else if (arg.memo.map List.length).getD 0 > settings.max_memo_size then
    .error (.GenericError 0 "memo size is too large")
  else
    match arg.created_at_time with
    | some created_at_time =>
      if created_at_time > now + settings.permitted_drift * SECOND then
        .error (.CreatedInFuture (now + settings.permitted_drift))
      else if created_at_time < now - (settings.tx_window + settings.permitted_drift) * SECOND then
        .error .TooOld
      else .ok ()
    | none => .ok ()

/-- `TransferFromArg` (ic-sft-types/src/icrc37.rs). -/
structure TransferFromArg where
  spender_subaccount : Option (List Nat)
  fromA : Account
  toA : Account
  token_id : Nat
  memo : Option (List Nat)
  created_at_time : Option Nat
deriving Repr, DecidableEq

/-- `TransferFromArg::validate` (schema.rs lines 273-319). -/
def TransferFromArg.validate (arg : TransferFromArg) (now : Nat)
    (caller : Principal) (settings : Settings) : Except TransferFromError Unit :=
  if arg.spender_subaccount.isSome || arg.fromA.subaccount.isSome ||
      arg.toA.subaccount.isSome then
    .error (.GenericError 0 "subaccount is not supported")
  else if arg.fromA.owner = ANONYMOUS || arg.fromA.owner = caller then
    .error .Unauthorized
  else if arg.toA.owner = ANONYMOUS || arg.toA.owner = arg.fromA.owner then
    .error .InvalidRecipient
  else if (arg.memo.map List.length).getD 0 > settings.max_memo_size then
    .error (.GenericError 0 "memo size is too large")
  else
    match arg.created_at_time with
    | some created_at_time =>
      if created_at_time > now + settings.permitted_drift * SECOND then
        .error (.CreatedInFuture (now + settings.permitted_drift))
      else if created_at_time < now - (settings.tx_window + settings.permitted_drift) * SECOND then
        .error .TooOld
      else .ok ()
    | none => .ok ()

/-- `RevokeCollectionApprovalArg` (ic-sft-types/src/icrc37.rs). -/
structure RevokeCollectionApprovalArg where
  spender : Option Account
  from_subaccount : Option (List Nat)
  memo : Option (List Nat)
  created_at_time : Option Nat
deriving Repr, DecidableEq

/-- `RevokeCollectionApprovalArg::validate` (schema.rs lines 223-271). -/
def RevokeCollectionApprovalArg.validate (arg : RevokeCollectionApprovalArg)
    (now : Nat) (caller : Principal) (settings : Settings) :
    Except RevokeCollectionApprovalError Unit :=
  if arg.from_subaccount.isSome ||
      (arg.spender.map (fun s => s.subaccount.isSome)).getD false then
    .error (.GenericError 0 "subaccount is not supported")
  else if (arg.spender.map (fun s => s.owner = ANONYMOUS || s.owner = caller)).getD false then
    .error (.GenericError 0 "invalid spender")
  else if (arg.memo.map List.length).getD 0 > settings.max_memo_size then
    .error (.GenericError 0 "memo size is too large")
  else
    match arg.created_at_time with
    | some created_at_time =>
      if created_at_time > now + settings.permitted_drift * SECOND then
        .error (.CreatedInFuture (now + settings.permitted_drift))
      else if created_at_time < now - (settings.tx_window + settings.permitted_drift) * SECOND then
        .error .TooOld
      else .ok ()
    | none => .ok ()

/-! ### Block and transaction codec (ic-sft-types/src/icrc3.rs, store.rs `blocks`) -/

/-- A block content hash (32 raw bytes), embedded as a byte list. -/
abbrev Hash := List Nat

/-- `Transaction` (ic-sft-types/src/icrc3.rs): the in-memory staging record. -/
structure Transaction where
  ts : Nat
  op : String
  tid : Nat
  fromA : Option Account
  toA : Option Account
  spender : Option Account
  exp : Option Nat
  memo : Option (List Nat)
  created_at_time : Option Nat
deriving Repr, DecidableEq

/-- `Transaction::transfer`. -/
def Transaction.transfer (now_ns tid : Nat) (fromP toP : Principal)
    (memo : Option (List Nat)) : Transaction :=
  ⟨now_ns, "7xfer", tid, some ⟨fromP, none⟩, some ⟨toP, none⟩, none, none, memo, none⟩

/-- `Transaction::transfer_from`. -/
def Transaction.transfer_from (now_ns tid : Nat) (fromP toP spender : Principal)
    (memo : Option (List Nat)) : Transaction :=
  ⟨now_ns, "37xfer", tid, some ⟨fromP, none⟩, some ⟨toP, none⟩,
    some ⟨spender, none⟩, none, memo, none⟩

/-- `Transaction::revoke_collection`. -/
def Transaction.revoke_collection (now_ns : Nat) (fromP : Principal)
    (spender : Option Principal) (memo : Option (List Nat)) : Transaction :=
  ⟨now_ns, "37revoke_coll", 0, some ⟨fromP, none⟩, none,
    spender.map (fun s => ⟨s, none⟩), none, memo, none⟩

/-- `Block::new` (ic-sft-types/src/icrc3.rs lines 63-97): the persisted wire
form. The source builds a string-keyed map and omits absent optional fields;
presence of a key is embedded as an `Option` field, so `phash = none` means
the block map carries no `phash` key. The nested `tx` map is kept as the
staged transaction record. -/
structure BlockV where
  phash : Option Hash
  btype : String
  ts : Nat
  tx : Transaction
deriving Repr, DecidableEq

/-- `Block::new`: insert `phash` only when a previous hash exists. -/
def Block.new (phash : Option Hash) (tx : Transaction) : BlockV :=
  ⟨phash, tx.op, tx.ts, tx⟩

/-- The chain-head fields of the `Collection` singleton together with the
`BLOCKS` stable log. -/
structure ChainState where
  last_block_index : Option Nat
  last_block_hash : Option Hash
  blocks : List BlockV
deriving Repr, DecidableEq

/-- The initial chain state (`Collection::default()`, empty log). -/
def ChainState.init : ChainState := ⟨none, none, []⟩

/-- `blocks::append` (store.rs lines 800-810): build the block from the
current chain head, append it to the log, then advance
(`last_block_index`, `last_block_hash`). The stable log's own append result
is abstracted by `logOk`; on log failure the collection record is untouched,
exactly as in the source where the error returns before the head update.
`hashF` abstracts `Block::hash` (the external ICRC-3 representation hash). -/
def blocks.append (hashF : BlockV → Hash) (logOk : Bool) (st : ChainState)
    (tx : Transaction) : ChainState × Except String Nat :=
  let blk := Block.new st.last_block_hash tx
  if logOk then
    let i := st.blocks.length
    (⟨some i, some (hashF blk), st.blocks ++ [blk]⟩, .ok i)
  else
    (st, .error "failed to append transaction log")

/-- Run a sequence of appends (each with its own log outcome) from a state. -/
def ChainState.run (hashF : BlockV → Hash) (st : ChainState)
    (steps : List (Bool × Transaction)) : ChainState :=
  match steps with
  | [] => st
  | (logOk, tx) :: rest =>
    ChainState.run hashF (blocks.append hashF logOk st tx).fst rest

/-! ### Ledger operations (api_icrc7.rs, api_icrc37.rs, api_sft_update.rs) -/

/-- The ledger state a single transfer-family item touches: the `HOLDERS`
region, the `HOLDER_TOKENS` reverse index, the `HOLDER_APPROVALS` region and
the block chain. -/
structure LedgerState where
  holders : HoldersMap
  holderTokens : HolderTokensMap
  collApprovals : ApprovalsMap
  chain : ChainState
deriving Repr

/-- One iteration of the `icrc7_transfer` item loop (api_icrc7.rs lines
282-328): validate, look up the group's holder list, `transfer_to` at index
`id.1`, append a `7xfer` block, write the holder list back and update the
reverse index with the caller as the outgoing owner. -/
def icrc7_transfer_item (hashF : BlockV → Hash) (logOk : Bool)
    (st : LedgerState) (caller : Principal) (arg : TransferArg) (now : Nat)
    (settings : Settings) : LedgerState × Option (Except TransferError Nat) :=
  match arg.validate now caller settings with
  | .error err => (st, some (.error err))
  | .ok _ =>
    let id := SftId.from_u64 (nat_to_u64 arg.token_id)
    match sget st.holders id.tokenId with
    | none => (st, some (.error .NonExistingTokenId))
    | some holders =>
      match holders.transfer_to caller arg.toA.owner id.sid with
      | .error err => (st, some (.error err))
      | .ok holders2 =>
        let tx_log := Transaction.transfer now (id.to_u64) caller arg.toA.owner arg.memo
        match blocks.append hashF logOk st.chain tx_log with
        | (chain2, .ok idx) =>
          ({ st with
              chain := chain2
              holders := sinsert st.holders id.tokenId holders2
              holderTokens :=
                holder_tokens.update_for_transfer st.holderTokens caller
                  arg.toA.owner id.tokenId id.sid },
           some (.ok idx))
        | (chain2, .error err) =>
          ({ st with chain := chain2 }, some (.error (.GenericBatchError 0 err)))

/-- One iteration of the `icrc37_transfer_from` item loop (api_icrc37.rs
lines 469-525): validate, check a collection-level or token-level approval
for the caller, look up the group's holder list, `transfer_from` at index
`id.1`, append a `37xfer` block, write the holder list back and update the
reverse index — passing `caller` (the spender), not `arg.fromA.owner`, as
the outgoing owner, exactly as the source does. -/
def icrc37_transfer_from_item (hashF : BlockV → Hash) (logOk : Bool)
    (st : LedgerState) (caller : Principal) (arg : TransferFromArg) (now : Nat)
    (settings : Settings) : LedgerState × Option (Except TransferFromError Nat) :=
  let now_sec := now / SECOND
  match arg.validate now caller settings with
  | .error err => (st, some (.error err))
  | .ok _ =>
    let id := SftId.from_u64 (nat_to_u64 arg.token_id)
    if ¬ approvals.is_approved st.collApprovals arg.fromA.owner caller now_sec ∧
        ¬ holder_tokens.is_approved st.holderTokens arg.fromA.owner caller
            id.tokenId id.sid now_sec then
      (st, some (.error .Unauthorized))
    else
      match sget st.holders id.tokenId with
      | none => (st, some (.error .NonExistingTokenId))
      | some holders =>
        match holders.transfer_from arg.fromA.owner arg.toA.owner id.sid with
        | .error err => (st, some (.error err))
        | .ok holders2 =>
          let tx_log := Transaction.transfer_from now (id.to_u64) arg.fromA.owner
            arg.toA.owner caller arg.memo
          match blocks.append hashF logOk st.chain tx_log with
          | (chain2, .ok idx) =>
            ({ st with
                chain := chain2
                holders := sinsert st.holders id.tokenId holders2
                holderTokens :=
                  holder_tokens.update_for_transfer st.holderTokens caller
                    arg.toA.owner id.tokenId id.sid },
             some (.ok idx))
          | (chain2, .error err) =>
            ({ st with chain := chain2 }, some (.error (.GenericBatchError 0 err)))

/-- The supply-cap gate of `sft_mint` (api_sft_update.rs lines 128-144): for
a token with `supply_cap = Some(cap)`, reject with `SupplyCapReached` when
`total_supply.saturating_add(batch len) >= cap`. `n` is the holder batch
length, already reduced `as u32`. -/
def sft_mint_cap_check (total_supply : Nat) (supply_cap : Option Nat) (n : Nat) :
    Except MintError Unit :=
  match supply_cap with
  | some cap =>
    if cap ≤ u32satAdd total_supply (n % U32SIZE) then .error .SupplyCapReached
    else .ok ()
  | none => .ok ()

/-- `approvals::revoke` (store.rs lines 751-780): walk the requested spenders
over the caller's collection approvals. `Some(spender)` removes that entry
from a local copy (recording `ApprovalDoesNotExist` when absent); `None`
removes the caller's whole entry from the region and returns immediately.
As in the source, the local copy is never written back to the region. -/
def approvals.revoke (r : ApprovalsMap) (fromP : Principal)
    (spenders : List (Option Principal)) :
    ApprovalsMap × List (Option (Except RevokeCollectionApprovalError Nat)) :=
  match sget r fromP with
  | some approvals0 => approvals.revokeLoop r fromP approvals0 spenders 0
      (List.replicate spenders.length none)
  | none => (r, List.replicate spenders.length (some (.error .ApprovalDoesNotExist)))
where
  /-- The `for (i, spender) in spenders.iter().enumerate()` loop. -/
  approvals.revokeLoop (r : ApprovalsMap) (fromP : Principal)
      (approvals : Approvals) (spenders : List (Option Principal)) (i : Nat)
      (res : List (Option (Except RevokeCollectionApprovalError Nat))) :
      ApprovalsMap × List (Option (Except RevokeCollectionApprovalError Nat)) :=
    match spenders with
    | [] => (r, res)
    | spender :: rest =>
      match spender with
      | some s =>
        if (sget approvals s).isNone then
          approvals.revokeLoop r fromP approvals rest (i + 1)
            (res.set i (some (.error .ApprovalDoesNotExist)))
        else
          approvals.revokeLoop r fromP (sremove approvals s) rest (i + 1) res
      | none => (sremove r fromP, res)

/-- Rust `Vec` index assignment `res[i] = v`: panics (embedded as `none`)
when `i` is out of bounds. -/
def vecSet {α : Type} (l : List α) (i : Nat) (v : α) : Option (List α) :=
  if i < l.length then some (l.set i v) else none

/-- The first loop of `icrc37_revoke_collection_approvals` (api_icrc37.rs
lines 385-393): validate each argument, writing failures into `res` at the
argument's index and collecting the indexes and spenders of the valid ones.
The write targets the result vector sized from the (empty) `spenders`
vector, so an out-of-bounds write is a panic (`none`). -/
def revoke_coll_loop1 (caller : Principal) (now : Nat) (settings : Settings)
    (args : List RevokeCollectionApprovalArg) (i : Nat)
    (res : List (Option (Except RevokeCollectionApprovalError Nat)))
    (idxs : List Nat) (spenders : List (Option Principal)) :
    Option (List (Option (Except RevokeCollectionApprovalError Nat)) ×
      List Nat × List (Option Principal)) :=
  match args with
  | [] => some (res, idxs, spenders)
  | arg :: rest =>
    match arg.validate now caller settings with
    | .error err =>
      match vecSet res i (some (.error err)) with
      | some res2 => revoke_coll_loop1 caller now settings rest (i + 1) res2 idxs spenders
      | none => none
    | .ok _ =>
      revoke_coll_loop1 caller now settings rest (i + 1) res
        (idxs ++ [i]) (spenders ++ [arg.spender.map Account.owner])

/-- The second loop of `icrc37_revoke_collection_approvals` (api_icrc37.rs
lines 396-425): for each valid argument, copy the store error or append a
`37revoke_coll` block and record the block index — each write again indexed
into the undersized result vector. -/
def revoke_coll_loop2 (hashF : BlockV → Hash) (caller : Principal) (now : Nat)
    (chain : ChainState) (spenders : List (Option Principal))
    (args : List RevokeCollectionApprovalArg) (idxs : List Nat) (i : Nat)
    (res2 : List (Option (Except RevokeCollectionApprovalError Nat)))
    (res : List (Option (Except RevokeCollectionApprovalError Nat))) :
    Option (ChainState × List (Option (Except RevokeCollectionApprovalError Nat))) :=
  match idxs with
  | [] => some (chain, res)
  | idx :: rest =>
    match res2.getD i none with
    | some val =>
      match vecSet res idx (some val) with
      | some resB => revoke_coll_loop2 hashF caller now chain spenders args rest (i + 1) res2 resB
      | none => none
    | none =>
      let tx_log := Transaction.revoke_collection now caller
        ((spenders.getD i none)) ((args.getD idx ⟨none, none, none, none⟩).memo)
      match blocks.append hashF true chain tx_log with
      | (chain2, .ok block_idx) =>
        match vecSet res idx (some (.ok block_idx)) with
        | some resB => revoke_coll_loop2 hashF caller now chain2 spenders args rest (i + 1) res2 resB
        | none => none
      | (chain2, .error err) =>
        match vecSet res idx (some (.error (.GenericBatchError 0 err))) with
        | some resB => revoke_coll_loop2 hashF caller now chain2 spenders args rest (i + 1) res2 resB
        | none => none

/-- `icrc37_revoke_collection_approvals` (api_icrc37.rs lines 367-428). The
result vector is created as `vec![None; spenders.len()]` while `spenders` is
still empty, so it has length 0; traps (empty batch, oversized batch) and
the out-of-bounds panics of the two loops are all embedded as `none`. The
stable-log append is taken as always succeeding (`logOk = true`), which only
makes the function less likely to fail. -/
def icrc37_revoke_collection_approvals (hashF : BlockV → Hash)
    (r : ApprovalsMap) (chain : ChainState) (caller : Principal)
    (args : List RevokeCollectionApprovalArg) (now : Nat) (settings : Settings) :
    Option (ApprovalsMap × ChainState ×
      List (Option (Except RevokeCollectionApprovalError Nat))) :=
  if args.isEmpty then none
  else if settings.max_revoke_approvals < args.length then none
  else
    let res0 : List (Option (Except RevokeCollectionApprovalError Nat)) :=
      List.replicate ([] : List (Option Principal)).length none
    match revoke_coll_loop1 caller now settings args 0 res0 [] [] with
    | none => none
    | some (res, idxs, spenders) =>
      let rr := approvals.revoke r caller spenders
      match revoke_coll_loop2 hashF caller now chain spenders args idxs 0 rr.snd res with
      | none => none
      | some (chain2, resFinal) => some (rr.fst, chain2, resFinal)

/-! ### Query and pagination layer (api_icrc7.rs) -/

/-- The inclusive range `[start, stop]` of group ids, ascending. -/
def rangeIncl (start stop : Nat) : List Nat :=
  (List.range (stop + 1 - start)).map (fun i => start + i)

/-- The `for tid in start_tid..=max_tid` loop of `icrc7_tokens`: push the
packed id `SftId(tid, 0)` and return as soon as the result length reaches
`take` (the check runs after each push). -/
def icrc7_tokens_loop (take : Nat) (res : List Nat) (tids : List Nat) : List Nat :=
  match tids with
  | [] => res
  | tid :: rest =>
    let res2 := res ++ [SftId.to_u64 ⟨tid, 0⟩]
    if take ≤ res2.length then res2 else icrc7_tokens_loop take res2 rest

/-- `icrc7_tokens` (api_icrc7.rs lines 178-197): `max_tid` is the token
vector length; with a cursor the iteration starts at the cursor's own group
id (`SftId::from(prev).0`), with no exclusion of the cursor itself. `take`
is the already-bounded effective take value. -/
def icrc7_tokens (max_tid : Nat) (prev : Option Nat) (take : Nat) : List Nat :=
  let start_tid := match prev with
    | some p => (SftId.from_u64 (nat_to_u64 p)).tokenId
    | none => 1
  icrc7_tokens_loop take [] (rangeIncl start_tid max_tid)

/-- The inner `for sid in sids` loop of `icrc7_tokens_of`: skip sub-item ids
below `start_sid`, push packed ids, and stop (flag `true`) once the result
length reaches `take`. -/
def tokens_of_inner (take tid start_sid : Nat) (sids : List Nat)
    (res : List Nat) : List Nat × Bool :=
  match sids with
  | [] => (res, false)
  | sid :: rest =>
    if sid < start_sid then tokens_of_inner take tid start_sid rest res
    else
      let res2 := res ++ [SftId.to_u64 ⟨tid, sid⟩]
      if take ≤ res2.length then (res2, true)
      else tokens_of_inner take tid start_sid rest res2

/-- The outer `for tid in tids` loop of `icrc7_tokens_of`: skip groups below
`start_tid`, run the inner loop, and reset `start_sid` to 1 after each
processed group. The map entries carry their sub-item id lists directly
(`token_ids` / `get_sids` on the same `HolderTokens` value). -/
def tokens_of_outer (take start_tid start_sid : Nat)
    (m : List (Nat × List Nat)) (res : List Nat) : List Nat :=
  match m with
  | [] => res
  | (tid, sids) :: rest =>
    if tid < start_tid then tokens_of_outer take start_tid start_sid rest res
    else
      match tokens_of_inner take tid start_sid sids res with
      | (res2, true) => res2
      | (res2, false) => tokens_of_outer take start_tid 1 rest res2

/-- `icrc7_tokens_of` (api_icrc7.rs lines 201-237): enumerate the holdings
of one account from its `HolderTokens` entry (`none` when the account has no
entry), starting from `SftId::from(prev).next()` or `SftId::MIN`. The entry
is given as each group id with its sorted sub-item id list. -/
def icrc7_tokens_of (entry : Option (List (Nat × List Nat))) (prev : Option Nat)
    (take : Nat) : List Nat :=
  match entry with
  | none => []
  | some tokens =>
    let start := match prev with
      | some p => (SftId.from_u64 (nat_to_u64 p)).next
      | none => SftId.MIN
    tokens_of_outer take start.tokenId start.sid tokens []

/-! ### Claim C8: approval expiry boundary is exclusive -/

theorem approvals_is_approved_lookup (r : ApprovalsMap) (fromP spender : Principal)
    (now c e : Nat)
    (h : (sget r fromP).bind (fun a => Approvals.get a spender) = some (c, e)) :
    approvals.is_approved r fromP spender now = decide (now < e) := by
  unfold approvals.is_approved
  cases hr : sget r fromP with
  | none => rw [hr] at h; simp at h
  | some a =>
    rw [hr] at h
    simp only [Option.some_bind] at h
    cases ha : Approvals.get a spender with
    | none => rw [ha] at h; simp at h
    | some pr =>
      rw [ha] at h
      simp only [Option.some.injEq] at h
      subst h
      simp [Approvals.get] at ha
      simp [ha]

theorem holder_tokens_is_approved_lookup (ht : HolderTokensMap)
    (fromP spender : Principal) (tid sid now c e : Nat)
    (h : ((sget ht fromP).bind
      (fun t => HolderTokens.get_approvals t tid sid)).bind
        (fun a => Approvals.get a spender) = some (c, e)) :
    holder_tokens.is_approved ht fromP spender tid sid now = decide (now < e) := by
  unfold HolderTokens.get_approvals at h
  unfold holder_tokens.is_approved
  cases hr : sget ht fromP with
  | none => simp [hr] at h
  | some tokens =>
    simp only [hr, Option.some_bind] at h ⊢
    cases hrec : sget tokens tid with
    | none => simp [hrec] at h
    | some records =>
      simp only [hrec] at h ⊢
      cases hap : sget records sid with
      | none => simp [hap] at h
      | some apOpt =>
        simp only [hap] at h ⊢
        cases apOpt with
        | none => simp at h
        | some approvals =>
          simp only [Option.some_bind, id] at h
          cases hs : sget approvals spender with
          | none => simp [Approvals.get, hs] at h
          | some pr =>
            simp only [Approvals.get, hs, Option.some.injEq] at h
            subst h
            simp [hs]

/-- C8: an approval whose stored `expires_at` equals `now` is not active for
the collection-level check, the token-level check, or the transfer-from
authorization built from them, while an approval whose stored `expires_at`
equals `now + 1` is active for each of them (the expiry bound is strictly
exclusive: `expire_at > now`). -/
theorem C8_approval_expiry_boundary_exclusive
    (r : ApprovalsMap) (ht : HolderTokensMap) (fromP spender : Principal)
    (tid sid now c1 c2 : Nat) :
    ((sget r fromP).bind (fun a => Approvals.get a spender) = some (c1, now) →
      approvals.is_approved r fromP spender now = false) ∧
    (((sget ht fromP).bind (fun t => HolderTokens.get_approvals t tid sid)).bind
        (fun a => Approvals.get a spender) = some (c2, now) →
      holder_tokens.is_approved ht fromP spender tid sid now = false) ∧
    ((sget r fromP).bind (fun a => Approvals.get a spender) = some (c1, now) →
      ((sget ht fromP).bind (fun t => HolderTokens.get_approvals t tid sid)).bind
        (fun a => Approvals.get a spender) = some (c2, now) →
      transfer_from_authorized r ht fromP spender tid sid now = false) ∧
    ((sget r fromP).bind (fun a => Approvals.get a spender) = some (c1, now + 1) →
      approvals.is_approved r fromP spender now = true) ∧
    (((sget ht fromP).bind (fun t => HolderTokens.get_approvals t tid sid)).bind
        (fun a => Approvals.get a spender) = some (c2, now + 1) →
      holder_tokens.is_approved ht fromP spender tid sid now = true) ∧
    ((sget r fromP).bind (fun a => Approvals.get a spender) = some (c1, now + 1) →
      transfer_from_authorized r ht fromP spender tid sid now = true) := by
  refine ⟨?_, ?_, ?_, ?_, ?_, ?_⟩
  · intro h
    rw [approvals_is_approved_lookup r fromP spender now c1 now h]
    simp
  · intro h
    rw [holder_tokens_is_approved_lookup ht fromP spender tid sid now c2 now h]
    simp
  · intro h1 h2
    unfold transfer_from_authorized
    rw [approvals_is_approved_lookup r fromP spender now c1 now h1]
    rw [holder_tokens_is_approved_lookup ht fromP spender tid sid now c2 now h2]
    simp
  · intro h
    rw [approvals_is_approved_lookup r fromP spender now c1 (now + 1) h]
    simp
  · intro h
    rw [holder_tokens_is_approved_lookup ht fromP spender tid sid now c2 (now + 1) h]
    simp
  · intro h
    unfold transfer_from_authorized
    rw [approvals_is_approved_lookup r fromP spender now c1 (now + 1) h]
    simp

/-- C8 witness: the boundary at a concrete state — owner 3 approving
spender 7, collection-level and token-level, with `expires_at` 50 checked at
time 50 (inactive) and at time 49 (active). -/
theorem C8_approval_expiry_boundary_exclusive_witness :
    approvals.is_approved [(3, [(7, (2, 50))])] 3 7 50 = false ∧
    holder_tokens.is_approved [(3, [(1, [(1, some [(7, (2, 50))])])])] 3 7 1 1 50 = false ∧
    transfer_from_authorized [(3, [(7, (2, 50))])]
      [(3, [(1, [(1, some [(7, (2, 50))])])])] 3 7 1 1 50 = false ∧
    approvals.is_approved [(3, [(7, (2, 50))])] 3 7 49 = true := by
  refine ⟨?_, ?_, ?_, ?_⟩
  · exact (C8_approval_expiry_boundary_exclusive [(3, [(7, (2, 50))])]
      [(3, [(1, [(1, some [(7, (2, 50))])])])] 3 7 1 1 50 2 2).1 (by decide)
  · exact (C8_approval_expiry_boundary_exclusive [(3, [(7, (2, 50))])]
      [(3, [(1, [(1, some [(7, (2, 50))])])])] 3 7 1 1 50 2 2).2.1 (by decide)
  · exact (C8_approval_expiry_boundary_exclusive [(3, [(7, (2, 50))])]
      [(3, [(1, [(1, some [(7, (2, 50))])])])] 3 7 1 1 50 2 2).2.2.1 (by decide) (by decide)
  · exact (C8_approval_expiry_boundary_exclusive [(3, [(7, (2, 50))])]
      [(3, [(1, [(1, some [(7, (2, 49 + 1))])])])] 3 7 1 1 49 2 2).2.2.2.1 (by decide)

/-! ### Claim C10: approvals without expiry are stored as 0 and never active -/

/-- The state effect of one successful `icrc37_approve_collection` argument
(api_icrc37.rs lines 235, 256-260 and the write-back on line 287): read the
caller's collection approvals (empty when absent), insert the spender with
`created_at_time.unwrap_or_default() / SECOND` and
`expires_at.unwrap_or_default() / SECOND`, and write the set back. -/
def icrc37_approve_collection_store (r : ApprovalsMap) (caller spender : Principal)
    (created_at_time expires_at : Option Nat) : ApprovalsMap :=
  let approvals := (sget r caller).getD []
  sinsert r caller
    (approvals.insert spender (created_at_time.getD 0 / SECOND) (expires_at.getD 0 / SECOND))

/-- The state effect of one `icrc37_approve_tokens` argument (api_icrc37.rs
lines 158-162, 170-177 and the write-back on lines 197/209): look up the
caller's `HolderTokens` entry (absent caller is `Unauthorized`), call
`insert_approvals` with the two `unwrap_or_default() / SECOND` timestamps,
and write the entry back. -/
def icrc37_approve_tokens_store (r : HolderTokensMap) (caller : Principal)
    (max_approvals tid sid : Nat) (spender : Principal)
    (created_at_time expires_at : Option Nat) :
    HolderTokensMap × Except ApproveTokenError Unit :=
  match sget r caller with
  | none => (r, .error .Unauthorized)
  | some tokens =>
    match tokens.insert_approvals max_approvals tid sid spender
      (created_at_time.getD 0 / SECOND) (expires_at.getD 0 / SECOND) with
    | (tokens2, .ok _) => (sinsert r caller tokens2, .ok ())
    | (tokens2, .error e) => (sinsert r caller tokens2, .error e)

theorem insert_approvals_stores (ht : HolderTokens) (max_approvals tid sid : Nat)
    (spender : Principal) (cs es : Nat) (ht2 : HolderTokens)
    (h : ht.insert_approvals max_approvals tid sid spender cs es = (ht2, .ok ())) :
    (sget ht2 tid).bind (fun records => (sget records sid).bind id) =
      some (Approvals.insert ((HolderTokens.get_approvals ht tid sid).getD [])
        spender cs es) := by
  unfold HolderTokens.insert_approvals at h
  cases h1 : sget ht tid with
  | none => rw [h1] at h; simp at h
  | some records =>
    simp only [h1] at h
    cases h2 : sget records sid with
    | none => simp [h2] at h
    | some apOpt =>
      simp only [h2] at h
      cases apOpt with
      | none =>
        simp only [Prod.mk.injEq] at h
        rw [← h.1]
        rw [sget_sinsert_self, Option.some_bind, sget_sinsert_self]
        simp [HolderTokens.get_approvals, h1, h2]
      | some approvals =>
        by_cases h3 : max_approvals ≤ approvals.total
        · simp [h3] at h
        · simp only [h3, if_false, Prod.mk.injEq] at h
          rw [← h.1]
          rw [sget_sinsert_self, Option.some_bind, sget_sinsert_self]
          simp [HolderTokens.get_approvals, h1, h2]

/-- C10: an approval granted with `expires_at = None` is stored with expiry
value 0 (both through `icrc37_approve_collection` and through
`icrc37_approve_tokens`), and since every activity check requires the stored
expiry to be strictly greater than the current time in seconds, such an
approval is never considered active — by the collection-level check, the
token-level check, or the transfer-from authorization — at any time. -/
theorem C10_no_expiry_approval_never_active
    (r : ApprovalsMap) (rHT : HolderTokensMap) (caller spender : Principal)
    (created_at_time : Option Nat) (max_approvals tid sid : Nat) (now : Nat) :
    ((sget (icrc37_approve_collection_store r caller spender created_at_time none)
        caller).bind (fun a => Approvals.get a spender) =
      some (created_at_time.getD 0 / SECOND, 0)) ∧
    (approvals.is_approved
      (icrc37_approve_collection_store r caller spender created_at_time none)
      caller spender now = false) ∧
    (∀ r2, icrc37_approve_tokens_store rHT caller max_approvals tid sid spender
        created_at_time none = (r2, .ok ()) →
      holder_tokens.is_approved r2 caller spender tid sid now = false) ∧
    (∀ r2, icrc37_approve_tokens_store rHT caller max_approvals tid sid spender
        created_at_time none = (r2, .ok ()) →
      transfer_from_authorized
        (icrc37_approve_collection_store r caller spender created_at_time none)
        r2 caller spender tid sid now = false) := by
  have hcol : (sget (icrc37_approve_collection_store r caller spender created_at_time none)
      caller).bind (fun a => Approvals.get a spender) =
      some (created_at_time.getD 0 / SECOND, 0) := by
    unfold icrc37_approve_collection_store
    rw [sget_sinsert_self, Option.some_bind]
    unfold Approvals.insert Approvals.get
    rw [sget_sinsert_self]
    simp [SECOND]
  have htokStore : ∀ r2, icrc37_approve_tokens_store rHT caller max_approvals tid sid spender
      created_at_time none = (r2, .ok ()) →
      ((sget r2 caller).bind (fun t => HolderTokens.get_approvals t tid sid)).bind
        (fun a => Approvals.get a spender) =
        some (created_at_time.getD 0 / SECOND, 0) := by
    intro r2 h
    unfold icrc37_approve_tokens_store at h
    cases hc : sget rHT caller with
    | none => rw [hc] at h; simp at h
    | some tokens =>
      simp only [hc] at h
      cases hins : tokens.insert_approvals max_approvals tid sid spender
          (created_at_time.getD 0 / SECOND) ((none : Option Nat).getD 0 / SECOND) with
      | mk tokens2 outcome =>
        cases outcome with
        | error e => simp only [hins] at h; simp at h
        | ok u =>
          simp only [hins] at h
          simp only [Prod.mk.injEq] at h
          have hstore := insert_approvals_stores tokens max_approvals tid sid spender
            (created_at_time.getD 0 / SECOND) ((none : Option Nat).getD 0 / SECOND)
            tokens2 hins
          rw [← h.1, sget_sinsert_self, Option.some_bind]
          unfold HolderTokens.get_approvals
          cases hg1 : sget tokens2 tid with
          | none => rw [hg1] at hstore; simp at hstore
          | some records2 =>
            rw [hg1, Option.some_bind] at hstore
            simp only [hg1]
            rw [hstore, Option.some_bind]
            unfold Approvals.insert Approvals.get
            rw [sget_sinsert_self]
            simp [SECOND]
  refine ⟨hcol, ?_, ?_, ?_⟩
  · rw [approvals_is_approved_lookup _ _ _ now _ 0 hcol]
    simp
  · intro r2 h
    rw [holder_tokens_is_approved_lookup _ _ _ tid sid now _ 0 (htokStore r2 h)]
    simp
  · intro r2 h
    unfold transfer_from_authorized
    rw [approvals_is_approved_lookup _ _ _ now _ 0 hcol]
    rw [holder_tokens_is_approved_lookup _ _ _ tid sid now _ 0 (htokStore r2 h)]
    simp

/-- C10 witness: owner 3 grants spender 7 a collection-level and a
token-level approval with no expiry; neither check nor the transfer-from
authorization ever accepts them (here checked at time 0 and at a large
time). -/
theorem C10_no_expiry_approval_never_active_witness :
    approvals.is_approved
      (icrc37_approve_collection_store [] 3 7 (some (5 * SECOND)) none) 3 7 0 = false ∧
    approvals.is_approved
      (icrc37_approve_collection_store [] 3 7 (some (5 * SECOND)) none) 3 7 99999999 = false ∧
    (∀ r2, icrc37_approve_tokens_store [(3, [(1, [(1, none)])])] 3 10 1 1 7
        (some (5 * SECOND)) none = (r2, .ok ()) →
      holder_tokens.is_approved r2 3 7 1 1 99999999 = false) := by
  refine ⟨?_, ?_, ?_⟩
  · exact (C10_no_expiry_approval_never_active [] [(3, [(1, [(1, none)])])] 3 7
      (some (5 * SECOND)) 10 1 1 0).2.1
  · exact (C10_no_expiry_approval_never_active [] [(3, [(1, [(1, none)])])] 3 7
      (some (5 * SECOND)) 10 1 1 99999999).2.1
  · exact (C10_no_expiry_approval_never_active [] [(3, [(1, [(1, none)])])] 3 7
      (some (5 * SECOND)) 10 1 1 99999999).2.2.1

/-! ### Claim C9: mint supply-cap bound -/

/-- C9 counterexample: with `supply_cap = Some(1)`, `total_supply = 0` and a
batch of one holder, `total_supply + n = 1` does not exceed the cap, yet the
mint gate rejects with `SupplyCapReached` (the source compares with `>=`),
refuting the claim that such a batch is accepted. -/
theorem C9_supply_cap_exact_batch_rejected :
    sft_mint_cap_check 0 (some 1) 1 = .error .SupplyCapReached ∧ 0 + 1 ≤ 1 := by
  constructor
  · rfl
  · decide

/-- C9 (amended): for a token with `supply_cap = Some(cap)` (a `u32`), a mint
batch of `n` holders passes the cap gate exactly when
`total_supply + n` is strictly less than `cap`; equivalently it is rejected
with `SupplyCapReached` exactly when `total_supply + n ≥ cap`, so a batch
that would bring `total_supply` exactly up to `cap` is rejected and the cap
itself is never reachable. -/
theorem C9_supply_cap_strict_bound (total_supply cap n : Nat)
    (hcap : cap < U32SIZE) (hn : n < U32SIZE) :
    (sft_mint_cap_check total_supply (some cap) n = .ok () ↔
      total_supply + n < cap) ∧
    (sft_mint_cap_check total_supply (some cap) n = .error .SupplyCapReached ↔
      cap ≤ total_supply + n) := by
  have hmod : n % U32SIZE = n := Nat.mod_eq_of_lt hn
  unfold sft_mint_cap_check u32satAdd
  rw [hmod]
  by_cases h : cap ≤ min (total_supply + n) U32MAX
  · simp only [h, if_true]
    constructor
    · constructor
      · intro hc; cases hc
      · intro hlt
        exfalso
        have : cap ≤ total_supply + n := le_trans h (min_le_left _ _)
        omega
    · constructor
      · intro _
        exact le_trans h (min_le_left _ _)
      · intro _; trivial
  · simp only [h, if_false]
    have hle : cap ≤ U32MAX := by unfold U32SIZE U32MAX at *; omega
    have hlt : total_supply + n < cap := by
      rcases Nat.lt_or_ge (total_supply + n) cap with h2 | h2
      · exact h2
      · exfalso; exact h (le_min h2 hle)
    constructor
    · simp [hlt]
    · constructor
      · intro hc; cases hc
      · intro hge; omega

/-- C9 witness: with cap 3 and total supply 1, a batch of 1 passes the gate
(1 + 1 < 3) and a batch of 2 is rejected (3 ≤ 1 + 2). -/
theorem C9_supply_cap_strict_bound_witness :
    sft_mint_cap_check 1 (some 3) 1 = .ok () ∧
    sft_mint_cap_check 1 (some 3) 2 = .error .SupplyCapReached := by
  constructor
  · exact (C9_supply_cap_strict_bound 1 3 1 (by decide) (by decide)).1.mpr (by decide)
  · exact (C9_supply_cap_strict_bound 1 3 2 (by decide) (by decide)).2.mpr (by decide)

/-! ### Claim C7: timestamp-window validation -/

/-- The settings of the C7 scenario: `tx_window = 3600` seconds,
`permitted_drift = 120` seconds. -/
def scenarioSettings : Settings :=
  ⟨100, 100, 10, 100, 32, false, 3600, 120, 10, 10⟩

/-- C7 counterexample: at ledger time `now = 10000` seconds
(`10000 * SECOND` nanoseconds) a transfer with
`created_at_time = (10000 + 121)` seconds is rejected as `CreatedInFuture`,
but the reported `ledger_time` is `now_ns + permitted_drift_seconds =
10000000000120` — the nanosecond clock plus an unscaled seconds value —
which is neither the claimed `10120` (seconds) nor `10120 * SECOND`
(nanoseconds). -/
theorem C7_created_in_future_ledger_time_mixed_units :
    TransferArg.validate ⟨none, ⟨6, none⟩, 42, none, some (10121 * SECOND)⟩
      (10000 * SECOND) 5 scenarioSettings =
      .error (.CreatedInFuture 10000000000120) ∧
    (10000000000120 : Nat) ≠ 10120 ∧
    (10000000000120 : Nat) ≠ 10120 * SECOND := by
  refine ⟨by rfl, by decide, by decide⟩

/-- C7 (amended): the window checks compare nanosecond values — `now` is the
raw nanosecond ledger time and the second-denominated settings are scaled by
`SECOND` — with strict boundaries exactly as claimed: a `created_at_time`
`t` (nanoseconds) is rejected `CreatedInFuture` exactly when
`t > now + permitted_drift * SECOND`, rejected `TooOld` exactly when it is
within the future bound but `t < now - (tx_window + permitted_drift) *
SECOND`, and accepted otherwise; in the scenario (`tx_window = 3600` s,
`permitted_drift = 120` s, `now = 10000` s) `created_at_time = 10000 - 3721`
seconds is rejected `TooOld`, and `created_at_time = 10000 + 121` seconds is
rejected `CreatedInFuture` whose `ledger_time` field is the mixed-unit value
`now + permitted_drift = 10000 * SECOND + 120`, not `10120` seconds. -/
theorem C7_timestamp_window_nanoseconds (settings : Settings)
    (caller toOwner token_id t now : Nat)
    (hsub : (settings.tx_window + settings.permitted_drift) * SECOND ≤ now)
    (hanon : toOwner ≠ ANONYMOUS) (hself : toOwner ≠ caller) :
    (TransferArg.validate ⟨none, ⟨toOwner, none⟩, token_id, none, some t⟩
        now caller settings =
        .error (.CreatedInFuture (now + settings.permitted_drift)) ↔
      now + settings.permitted_drift * SECOND < t) ∧
    (TransferArg.validate ⟨none, ⟨toOwner, none⟩, token_id, none, some t⟩
        now caller settings = .error .TooOld ↔
      t ≤ now + settings.permitted_drift * SECOND ∧
        t < now - (settings.tx_window + settings.permitted_drift) * SECOND) ∧
    (TransferArg.validate ⟨none, ⟨toOwner, none⟩, token_id, none, some t⟩
        now caller settings = .ok () ↔
      now - (settings.tx_window + settings.permitted_drift) * SECOND ≤ t ∧
        t ≤ now + settings.permitted_drift * SECOND) := by
  unfold TransferArg.validate
  simp only [Option.isSome_none, Bool.or_self, if_false, Bool.false_or]
  have h1 : (toOwner = ANONYMOUS || toOwner = caller) = false := by
    simp [hanon, hself]
  rw [h1]
  simp only [Bool.false_eq_true, if_false, Option.map_none, Option.getD_none]
  by_cases hf : t > now + settings.permitted_drift * SECOND
  · rw [if_pos hf]
    refine ⟨⟨fun _ => hf, fun _ => rfl⟩, ?_, ?_⟩
    · constructor
      · intro hc; simp at hc
      · rintro ⟨hA, hB⟩; exfalso; omega
    · constructor
      · intro hc; simp at hc
      · rintro ⟨hA, hB⟩; exfalso; omega
  · rw [if_neg hf]
    by_cases ho : t < now - (settings.tx_window + settings.permitted_drift) * SECOND
    · rw [if_pos ho]
      refine ⟨?_, ⟨fun _ => ⟨by omega, ho⟩, fun _ => rfl⟩, ?_⟩
      · constructor
        · intro hc; simp at hc
        · intro hc; exfalso; omega
      · constructor
        · intro hc; simp at hc
        · rintro ⟨hA, hB⟩; exfalso; omega
    · rw [if_neg ho]
      refine ⟨?_, ?_, ⟨fun _ => ⟨by omega, by omega⟩, fun _ => rfl⟩⟩
      · constructor
        · intro hc; simp at hc
        · intro hc; exfalso; omega
      · constructor
        · intro hc; simp at hc
        · rintro ⟨hA, hB⟩; exfalso; omega

/-- C7 witness: the scenario instances obtained from the amended theorem —
`created_at_time = (10000 - 3721) * SECOND` is `TooOld`, and
`created_at_time = 10121 * SECOND` is `CreatedInFuture` with the mixed-unit
`ledger_time` value `10000 * SECOND + 120`. -/
theorem C7_timestamp_window_nanoseconds_witness :
    TransferArg.validate ⟨none, ⟨6, none⟩, 42, none, some ((10000 - 3721) * SECOND)⟩
      (10000 * SECOND) 5 scenarioSettings = .error .TooOld ∧
    TransferArg.validate ⟨none, ⟨6, none⟩, 42, none, some (10121 * SECOND)⟩
      (10000 * SECOND) 5 scenarioSettings =
      .error (.CreatedInFuture (10000 * SECOND + 120)) := by
  constructor
  · exact (C7_timestamp_window_nanoseconds scenarioSettings 5 6 42
      ((10000 - 3721) * SECOND) (10000 * SECOND) (by decide) (by decide)
      (by decide)).2.1.mpr (by decide)
  · exact (C7_timestamp_window_nanoseconds scenarioSettings 5 6 42
      (10121 * SECOND) (10000 * SECOND) (by decide) (by decide)
      (by decide)).1.mpr (by decide)

/-! ### Claim C4: revoke-token-approval semantics -/

/-- C4: evaluating `HolderTokens::revoke` on a caller who owns sub-item
(1, 1) carrying a single approval for spender 7: the `spender = None` item
does remove all token-level approvals from the state, but it returns
`Err(NonExistingTokenId)` rather than `Ok` (the mutating branch falls
through to the trailing error), so no block is appended and the call reports
failure; the `spender = Some` paths behave as claimed — the exact entry is
removed on success and a missing entry yields `ApprovalDoesNotExist`. -/
theorem C4_revoke_all_returns_non_existing_token_id :
    HolderTokens.revoke [(1, [(1, some [(7, (3, 100))])])] 1 1 none =
      ([(1, [(1, none)])], .error .NonExistingTokenId) ∧
    HolderTokens.revoke [(1, [(1, some [(7, (3, 100))])])] 1 1 (some 7) =
      ([(1, [(1, some [])])], .ok ()) ∧
    HolderTokens.revoke [(1, [(1, some [(7, (3, 100))])])] 1 1 (some 8) =
      ([(1, [(1, some [(7, (3, 100))])])], .error .ApprovalDoesNotExist) := by
  refine ⟨by rfl, by rfl, by rfl⟩

/-! ### Claim C2: mint-then-transfer scenario -/

/-- The claim's dual-index membership test: `HolderTokens[owner]` contains
(`g`,`i`). -/
def htContains (htm : HolderTokensMap) (owner : Principal) (g i : Nat) : Bool :=
  match sget htm owner with
  | some ht =>
    match sget ht g with
    | some records => (sget records i).isSome
    | none => false
  | none => false

/-- The claim's authoritative-owner lookup: `Holders[group][item - 1]`. -/
def ownerAt (hm : HoldersMap) (g i : Nat) : Option Principal :=
  (sget hm g).bind (fun hs => hs.get? (i - 1))

/-- The claim's dual-index consistency invariant: for every principal,
group and sub-item, `HolderTokens[owner]` contains (`g`,`i`) exactly when
`Holders[g][i-1] = owner`. -/
def dualIndexConsistent (hm : HoldersMap) (htm : HolderTokensMap) : Prop :=
  ∀ owner g i, htContains htm owner g i = true ↔ ownerAt hm g i = some owner

/-- C2: the scenario fails at the transfer step. After minting one sub-item
of group 1 to holder A (= 5) the holder list is `[A]`, so position 0 holds A
as the claim states; but A's `icrc7_transfer` of the packed id
(group 1, item 1) is rejected with `NonExistingTokenId` and the state is
unchanged, because `Holders::transfer_to` indexes the list at `sub_item_id`
itself (position 1, out of bounds for one minted item) instead of
`sub_item_id - 1`. The same position-equals-sid lookup means
`icrc7_owner_of`-style reads of id (1,1) also find nothing. -/
theorem C2_transfer_of_item_one_fails :
    Holders.push [] 5 = [5] ∧
    Holders.get [5] 0 = some 5 ∧
    Holders.get [5] 1 = none ∧
    (icrc7_transfer_item (fun _ => []) true
      ⟨[(1, [5])], [(5, [(1, [(1, none)])])], [], ChainState.init⟩
      5 ⟨none, ⟨6, none⟩, SftId.to_u64 ⟨1, 1⟩, none, none⟩ (1000 * SECOND)
      scenarioSettings).snd = some (.error .NonExistingTokenId) ∧
    (icrc7_transfer_item (fun _ => []) true
      ⟨[(1, [5])], [(5, [(1, [(1, none)])])], [], ChainState.init⟩
      5 ⟨none, ⟨6, none⟩, SftId.to_u64 ⟨1, 1⟩, none, none⟩ (1000 * SECOND)
      scenarioSettings).fst.holders = [(1, [5])] ∧
    (icrc7_transfer_item (fun _ => []) true
      ⟨[(1, [5])], [(5, [(1, [(1, none)])])], [], ChainState.init⟩
      5 ⟨none, ⟨6, none⟩, SftId.to_u64 ⟨1, 1⟩, none, none⟩ (1000 * SECOND)
      scenarioSettings).fst.chain.blocks = [] := by
  refine ⟨by rfl, by rfl, by rfl, by rfl, by rfl, by rfl⟩

/-! ### Claim C1: dual-index consistency across transfer-from -/

/-- C1: a successful `icrc37_transfer_from` does not remove the transferred
item from the `from` owner's reverse-index entry. Starting from group 1 with
holders `[9, F]` (F = 4 owns sub-item at list position 1), F's reverse-index
entry containing (1,1), and spender S = 5 holding an active collection
approval from F, S transfers (1,1) from F to B = 6. The call succeeds with
block index 0 and updates the holder list, but
`holder_tokens::update_for_transfer` is invoked with `caller` (the spender)
in the `from` position, so F's entry still contains (1,1) while B also
gains it — the claimed if-and-only-if invariant is violated in the
resulting state. -/
theorem C1_transfer_from_leaves_from_owner_index :
    (icrc37_transfer_from_item (fun _ => []) true
      ⟨[(1, [9, 4])], [(4, [(1, [(1, none)])])], [(4, [(5, (0, 2000))])], ChainState.init⟩
      5 ⟨none, ⟨4, none⟩, ⟨6, none⟩, SftId.to_u64 ⟨1, 1⟩, none, none⟩
      (1000 * SECOND) scenarioSettings).snd = some (.ok 0) ∧
    (icrc37_transfer_from_item (fun _ => []) true
      ⟨[(1, [9, 4])], [(4, [(1, [(1, none)])])], [(4, [(5, (0, 2000))])], ChainState.init⟩
      5 ⟨none, ⟨4, none⟩, ⟨6, none⟩, SftId.to_u64 ⟨1, 1⟩, none, none⟩
      (1000 * SECOND) scenarioSettings).fst.holders = [(1, [9, 6])] ∧
    htContains (icrc37_transfer_from_item (fun _ => []) true
      ⟨[(1, [9, 4])], [(4, [(1, [(1, none)])])], [(4, [(5, (0, 2000))])], ChainState.init⟩
      5 ⟨none, ⟨4, none⟩, ⟨6, none⟩, SftId.to_u64 ⟨1, 1⟩, none, none⟩
      (1000 * SECOND) scenarioSettings).fst.holderTokens 4 1 1 = true ∧
    ownerAt (icrc37_transfer_from_item (fun _ => []) true
      ⟨[(1, [9, 4])], [(4, [(1, [(1, none)])])], [(4, [(5, (0, 2000))])], ChainState.init⟩
      5 ⟨none, ⟨4, none⟩, ⟨6, none⟩, SftId.to_u64 ⟨1, 1⟩, none, none⟩
      (1000 * SECOND) scenarioSettings).fst.holders 1 1 = some 9 ∧
    ¬ dualIndexConsistent
      (icrc37_transfer_from_item (fun _ => []) true
        ⟨[(1, [9, 4])], [(4, [(1, [(1, none)])])], [(4, [(5, (0, 2000))])], ChainState.init⟩
        5 ⟨none, ⟨4, none⟩, ⟨6, none⟩, SftId.to_u64 ⟨1, 1⟩, none, none⟩
        (1000 * SECOND) scenarioSettings).fst.holders
      (icrc37_transfer_from_item (fun _ => []) true
        ⟨[(1, [9, 4])], [(4, [(1, [(1, none)])])], [(4, [(5, (0, 2000))])], ChainState.init⟩
        5 ⟨none, ⟨4, none⟩, ⟨6, none⟩, SftId.to_u64 ⟨1, 1⟩, none, none⟩
        (1000 * SECOND) scenarioSettings).fst.holderTokens := by
  refine ⟨by rfl, by rfl, by rfl, by rfl, ?_⟩
  intro hcons
  have hmem := (hcons 4 1 1).mp (by rfl)
  rw [show ownerAt (icrc37_transfer_from_item (fun _ => []) true
      ⟨[(1, [9, 4])], [(4, [(1, [(1, none)])])], [(4, [(5, (0, 2000))])], ChainState.init⟩
      5 ⟨none, ⟨4, none⟩, ⟨6, none⟩, SftId.to_u64 ⟨1, 1⟩, none, none⟩
      (1000 * SECOND) scenarioSettings).fst.holders 1 1 = some 9 from rfl] at hmem
  simp at hmem

/-! ### Claim C5: per-item batch result shape of revoke-collection -/

theorem revoke_coll_loop2_empty_res (hashF : BlockV → Hash) (caller : Principal)
    (now : Nat) (chain : ChainState) (spenders : List (Option Principal))
    (args : List RevokeCollectionApprovalArg) (idx : Nat) (rest : List Nat)
    (i : Nat) (res2 : List (Option (Except RevokeCollectionApprovalError Nat))) :
    revoke_coll_loop2 hashF caller now chain spenders args (idx :: rest) i res2 [] =
      none := by
  unfold revoke_coll_loop2
  cases hv : res2.getD i none with
  | some val => simp [vecSet]
  | none => simp [vecSet, blocks.append]

theorem revoke_coll_loop1_empty_res (caller : Principal) (now : Nat)
    (settings : Settings) (args : List RevokeCollectionApprovalArg) :
    ∀ (i : Nat) (idxs : List Nat) (spenders : List (Option Principal)),
      revoke_coll_loop1 caller now settings args i [] idxs spenders = none ∨
      ∃ idxs2 spenders2,
        revoke_coll_loop1 caller now settings args i [] idxs spenders =
          some ([], idxs2, spenders2) ∧
        idxs2.length = idxs.length + args.length := by
  induction args with
  | nil =>
    intro i idxs spenders
    right
    exact ⟨idxs, spenders, rfl, by simp⟩
  | cons arg rest ih =>
    intro i idxs spenders
    unfold revoke_coll_loop1
    cases hv : arg.validate now caller settings with
    | error err =>
      left
      simp [vecSet]
    | ok u =>
      rcases ih (i + 1) (idxs ++ [i]) (spenders ++ [arg.spender.map Account.owner])
        with h | ⟨idxs2, sp2, heq, hlen⟩
      · left; exact h
      · right
        refine ⟨idxs2, sp2, heq, ?_⟩
        simp at hlen
        simp [hlen]
        omega

/-- C5: `icrc37_revoke_collection_approvals` never returns a result vector
for any batch the claim covers — the result vector is created with
`vec![None; spenders.len()]` while `spenders` is still empty, so every later
indexed write (a validation error in the first loop, or any outcome in the
second loop) is an out-of-bounds `Vec` index assignment, which panics. For
every non-empty argument list within `max_revoke_approvals`, the call ends
in a panic (modelled as `none`) instead of producing a same-length
result vector. -/
theorem C5_revoke_collection_approvals_always_panics (hashF : BlockV → Hash)
    (r : ApprovalsMap) (chain : ChainState) (caller : Principal)
    (args : List RevokeCollectionApprovalArg) (now : Nat) (settings : Settings)
    (hne : args ≠ []) (hlen : args.length ≤ settings.max_revoke_approvals) :
    icrc37_revoke_collection_approvals hashF r chain caller args now settings =
      none := by
  unfold icrc37_revoke_collection_approvals
  have h1 : ¬ (args.isEmpty = true) := by simp [hne]
  have h2 : ¬ (settings.max_revoke_approvals < args.length) := by omega
  rw [if_neg h1, if_neg h2]
  simp only [List.length_nil, List.replicate]
  rcases revoke_coll_loop1_empty_res caller now settings args 0 [] [] with h | hEx
  · rw [h]
  · obtain ⟨idxs2, sp2, heq, hlenq⟩ := hEx
    rw [heq]
    cases idxs2 with
    | nil =>
      exfalso
      simp at hlenq
      have : args.length = 0 := hlenq.symm
      exact hne (List.length_eq_zero.mp this)
    | cons idx restIdx =>
      simp only []
      rw [revoke_coll_loop2_empty_res]

/-- C5 witness: a single well-formed revoke argument (spender 7, no memo,
no subaccounts) from caller 5 panics instead of returning a one-element
result vector. -/
theorem C5_revoke_collection_approvals_always_panics_witness :
    icrc37_revoke_collection_approvals (fun _ => []) [] ChainState.init 5
      [⟨some ⟨7, none⟩, none, none, none⟩] 1000 scenarioSettings = none :=
  C5_revoke_collection_approvals_always_panics (fun _ => []) [] ChainState.init 5
    [⟨some ⟨7, none⟩, none, none, none⟩] 1000 scenarioSettings
    (by decide) (by decide)

/-! ### Claim C3: chain integrity -/

/-- The block list is correctly linked when read with `ph` as the expected
`phash` of its first block: each block carries the hash of its predecessor
and the first carries `ph`. -/
def linkedFrom (hashF : BlockV → Hash) : Option Hash → List BlockV → Prop
  | _, [] => True
  | ph, b :: rest => b.phash = ph ∧ linkedFrom hashF (some (hashF b)) rest

/-- The hash that the chain head should hold after the given blocks. -/
def endHash (hashF : BlockV → Hash) (ph : Option Hash) : List BlockV → Option Hash
  | [] => ph
  | b :: rest => endHash hashF (some (hashF b)) rest

/-- The chain-head invariant tying the `Collection` fields to the log. -/
def chainWf (hashF : BlockV → Hash) (st : ChainState) : Prop :=
  linkedFrom hashF none st.blocks ∧
  st.last_block_hash = endHash hashF none st.blocks ∧
  st.last_block_index = (if st.blocks.isEmpty then none else some (st.blocks.length - 1))

theorem linkedFrom_append (hashF : BlockV → Hash) (bs : List BlockV)
    (b : BlockV) : ∀ ph, linkedFrom hashF ph bs → b.phash = endHash hashF ph bs →
    linkedFrom hashF ph (bs ++ [b]) := by
  induction bs with
  | nil =>
    intro ph _ hb
    exact ⟨hb, trivial⟩
  | cons hd tl ih =>
    intro ph hl hb
    exact ⟨hl.1, ih (some (hashF hd)) hl.2 hb⟩

theorem endHash_append (hashF : BlockV → Hash) (bs : List BlockV) (b : BlockV) :
    ∀ ph, endHash hashF ph (bs ++ [b]) = some (hashF b) := by
  induction bs with
  | nil => intro ph; rfl
  | cons hd tl ih => intro ph; exact ih (some (hashF hd))

theorem chainWf_append (hashF : BlockV → Hash) (logOk : Bool) (st : ChainState)
    (tx : Transaction) (hwf : chainWf hashF st) :
    chainWf hashF (blocks.append hashF logOk st tx).fst := by
  obtain ⟨hl, hh, hi⟩ := hwf
  cases logOk with
  | false => exact ⟨hl, hh, hi⟩
  | true =>
    refine ⟨?_, ?_, ?_⟩
    · exact linkedFrom_append hashF st.blocks (Block.new st.last_block_hash tx) none hl
        (by rw [Block.new]; rw [hh])
    · simp [blocks.append, endHash_append]
    · simp [blocks.append]

theorem chainWf_run (hashF : BlockV → Hash) (steps : List (Bool × Transaction)) :
    ∀ st, chainWf hashF st → chainWf hashF (ChainState.run hashF st steps) := by
  induction steps with
  | nil => intro st h; exact h
  | cons step rest ih =>
    intro st h
    exact ih _ (chainWf_append hashF step.fst st step.snd h)

theorem linkedFrom_get (hashF : BlockV → Hash) (bs : List BlockV) :
    ∀ ph, linkedFrom hashF ph bs →
      (∀ b, bs.get? 0 = some b → b.phash = ph) ∧
      (∀ i b b2, bs.get? i = some b → bs.get? (i + 1) = some b2 →
        b2.phash = some (hashF b)) := by
  induction bs with
  | nil =>
    intro ph _
    constructor
    · intro b hb; simp at hb
    · intro i b b2 hb; simp at hb
  | cons hd tl ih =>
    intro ph hl
    constructor
    · intro b hb
      simp at hb
      rw [← hb]
      exact hl.1
    · intro i b b2 hb hb2
      cases i with
      | zero =>
        simp at hb
        have := (ih (some (hashF hd)) hl.2).1 b2 (by simpa using hb2)
        rw [this, hb]
      | succ j =>
        exact (ih (some (hashF hd)) hl.2).2 j b b2 (by simpa using hb)
          (by simpa using hb2)

theorem endHash_getLast (hashF : BlockV → Hash) (bs : List BlockV) :
    ∀ ph b, bs.getLast? = some b → endHash hashF ph bs = some (hashF b) := by
  induction bs with
  | nil => intro ph b hb; simp at hb
  | cons hd tl ih =>
    intro ph b hb
    cases tl with
    | nil =>
      simp at hb
      rw [← hb]
      rfl
    | cons hd2 tl2 =>
      rw [List.getLast?_cons_cons] at hb
      exact ih (some (hashF hd)) b hb

/-- C3: chain integrity. For every hash function and every sequence of
appends run from the initial empty chain: the first stored block carries no
`phash` field; every later block's `phash` equals the hash of its
predecessor; whenever the log is non-empty the Collection's
`last_block_index` is the index of the newest block and `last_block_hash`
is that block's hash; a failed log append returns the error and leaves the
whole chain state (head fields included) unchanged; and a successful append
returns the new block's index with both head fields advanced to it. -/
theorem C3_chain_integrity (hashF : BlockV → Hash)
    (steps : List (Bool × Transaction)) :
    (∀ b, (ChainState.run hashF ChainState.init steps).blocks.get? 0 = some b →
      b.phash = none) ∧
    (∀ i b b2, (ChainState.run hashF ChainState.init steps).blocks.get? i = some b →
      (ChainState.run hashF ChainState.init steps).blocks.get? (i + 1) = some b2 →
      b2.phash = some (hashF b)) ∧
    ((ChainState.run hashF ChainState.init steps).blocks ≠ [] →
      (ChainState.run hashF ChainState.init steps).last_block_index =
        some ((ChainState.run hashF ChainState.init steps).blocks.length - 1) ∧
      ∃ bl, (ChainState.run hashF ChainState.init steps).blocks.getLast? = some bl ∧
        (ChainState.run hashF ChainState.init steps).last_block_hash =
          some (hashF bl)) ∧
    (∀ st tx, blocks.append hashF false st tx =
      (st, .error "failed to append transaction log")) ∧
    (∀ st tx st2 i, blocks.append hashF true st tx = (st2, .ok i) →
      i = st.blocks.length ∧
      st2.last_block_index = some i ∧
      st2.blocks.get? i = some (Block.new st.last_block_hash tx) ∧
      st2.last_block_hash = some (hashF (Block.new st.last_block_hash tx))) := by
  have hwf : chainWf hashF (ChainState.run hashF ChainState.init steps) :=
    chainWf_run hashF steps ChainState.init ⟨trivial, rfl, rfl⟩
  obtain ⟨hl, hh, hi⟩ := hwf
  have hget := linkedFrom_get hashF _ none hl
  refine ⟨hget.1, hget.2, ?_, ?_, ?_⟩
  · intro hne
    have hemp : (ChainState.run hashF ChainState.init steps).blocks.isEmpty = false := by
      cases hbs : (ChainState.run hashF ChainState.init steps).blocks with
      | nil => exact absurd hbs hne
      | cons a l => rfl
    constructor
    · rw [hi]; simp [hemp]
    · cases hbl : (ChainState.run hashF ChainState.init steps).blocks.getLast? with
      | none => exact absurd (List.getLast?_eq_none_iff.mp hbl) hne
      | some bl =>
        exact ⟨bl, rfl, by rw [hh, endHash_getLast hashF _ none bl hbl]⟩
  · intro st tx; rfl
  · intro st tx st2 i happ
    have hred : blocks.append hashF true st tx =
        (⟨some st.blocks.length, some (hashF (Block.new st.last_block_hash tx)),
          st.blocks ++ [Block.new st.last_block_hash tx]⟩, .ok st.blocks.length) := rfl
    rw [hred] at happ
    have hst2 := congrArg Prod.fst happ
    have hok := congrArg Prod.snd happ
    simp only [] at hst2 hok
    have hi2 : st.blocks.length = i := by
      injection hok with h
    subst hi2
    rw [← hst2]
    refine ⟨rfl, rfl, ?_, rfl⟩
    exact List.get?_concat_length st.blocks (Block.new st.last_block_hash tx)

/-- C3 witness: two successful appends of concrete `7xfer` transactions
under the constant-zero hash: the first stored block has no `phash`, the
second block's `phash` is the hash of the first, and a failed append on the
resulting state returns the error unchanged. -/
theorem C3_chain_integrity_witness :
    (Block.new (some ((fun _ => [0]) (Block.new none (Transaction.transfer 1 4294967297 5 6 none))))
        (Transaction.transfer 2 4294967297 6 5 none)).phash =
      some ((fun (_ : BlockV) => [0]) (Block.new none (Transaction.transfer 1 4294967297 5 6 none))) ∧
    (Block.new none (Transaction.transfer 1 4294967297 5 6 none)).phash = none ∧
    (∀ tx, blocks.append (fun _ => [0]) false
      (ChainState.run (fun _ => [0]) ChainState.init
        [(true, Transaction.transfer 1 4294967297 5 6 none),
         (true, Transaction.transfer 2 4294967297 6 5 none)]) tx =
      ((ChainState.run (fun _ => [0]) ChainState.init
        [(true, Transaction.transfer 1 4294967297 5 6 none),
         (true, Transaction.transfer 2 4294967297 6 5 none)]),
        .error "failed to append transaction log")) := by
  refine ⟨?_, ?_, ?_⟩
  · exact (C3_chain_integrity (fun _ => [0])
      [(true, Transaction.transfer 1 4294967297 5 6 none),
       (true, Transaction.transfer 2 4294967297 6 5 none)]).2.1 0
      (Block.new none (Transaction.transfer 1 4294967297 5 6 none))
      (Block.new (some ((fun _ => [0]) (Block.new none (Transaction.transfer 1 4294967297 5 6 none))))
        (Transaction.transfer 2 4294967297 6 5 none)) (by rfl) (by rfl)
  · exact (C3_chain_integrity (fun _ => [0])
      [(true, Transaction.transfer 1 4294967297 5 6 none),
       (true, Transaction.transfer 2 4294967297 6 5 none)]).1
      (Block.new none (Transaction.transfer 1 4294967297 5 6 none)) (by rfl)
  · exact fun tx => (C3_chain_integrity (fun _ => [0])
      [(true, Transaction.transfer 1 4294967297 5 6 none),
       (true, Transaction.transfer 2 4294967297 6 5 none)]).2.2.2.1 _ tx

/-! ### Claim C6: pagination cursor exclusivity and monotonicity -/

/-- Lexicographic order on (group, sub-item) pairs — the enumeration order
of `HolderTokens`. -/
def pairLt (p q : Nat × Nat) : Prop := p.1 < q.1 ∨ (p.1 = q.1 ∧ p.2 < q.2)

instance (p q : Nat × Nat) : Decidable (pairLt p q) := by
  unfold pairLt; infer_instance

/-- The full (group, sub-item) enumeration of a `HolderTokens` entry. -/
def pairsOf (m : List (Nat × List Nat)) : List (Nat × Nat) :=
  m.flatMap (fun p => p.snd.map (fun s => (p.fst, s)))

/-- Pack an enumeration of pairs into `u64` token ids. -/
def packList (l : List (Nat × Nat)) : List Nat :=
  l.map (fun p => SftId.to_u64 ⟨p.fst, p.snd⟩)

/-- The pairs the `icrc7_tokens_of` loops visit from cursor position
(`sT`, `sS`), with the source's `start_sid = 1` reset after the first
processed group. -/
def afterCursorT (sT sS : Nat) : List (Nat × List Nat) → List (Nat × Nat)
  | [] => []
  | (tid, sids) :: rest =>
    if tid < sT then afterCursorT sT sS rest
    else (sids.filter (fun s => decide (sS ≤ s))).map (fun s => (tid, s)) ++
      afterCursorT sT 1 rest

/-- Well-formedness of a `HolderTokens` entry as stored by the canister:
group ids ascending and in `u32` range (≥ 1), each group's sub-item ids
ascending, ≥ 1 and below `u32::MAX` (so that the saturating cursor increment
is exact). -/
def pagWf (m : List (Nat × List Nat)) : Prop :=
  List.Pairwise (· < ·) (skeys m) ∧
  ∀ p ∈ m, 1 ≤ p.fst ∧ p.fst < U32SIZE ∧ List.Pairwise (· < ·) p.snd ∧
    ∀ s ∈ p.snd, 1 ≤ s ∧ s < U32MAX

theorem pagWf_tail (p : Nat × List Nat) (rest : List (Nat × List Nat))
    (hwf : pagWf (p :: rest)) : pagWf rest := by
  obtain ⟨hk, hp⟩ := hwf
  exact ⟨(List.pairwise_cons.mp hk).2, fun q hq => hp q (List.mem_cons_of_mem p hq)⟩

theorem tokens_of_inner_spec (take tid sS : Nat) (sids : List Nat) :
    ∀ res : List Nat, res.length < take →
      tokens_of_inner take tid sS sids res =
        (if take ≤ (res ++ (sids.filter (fun s => decide (sS ≤ s))).map
            (fun s => SftId.to_u64 ⟨tid, s⟩)).length then
          ((res ++ (sids.filter (fun s => decide (sS ≤ s))).map
            (fun s => SftId.to_u64 ⟨tid, s⟩)).take take, true)
        else
          (res ++ (sids.filter (fun s => decide (sS ≤ s))).map
            (fun s => SftId.to_u64 ⟨tid, s⟩), false)) := by
  induction sids with
  | nil =>
    intro res hres
    have hnot : ¬ take ≤ (res ++ (([] : List Nat).filter
        (fun s => decide (sS ≤ s))).map (fun s => SftId.to_u64 ⟨tid, s⟩)).length := by
      simp
      omega
    rw [if_neg hnot]
    simp [tokens_of_inner]
  | cons sid rest ih =>
    intro res hres
    by_cases hs : sid < sS
    · have hfil : decide (sS ≤ sid) = false := by simp; omega
      have hstep : tokens_of_inner take tid sS (sid :: rest) res =
          tokens_of_inner take tid sS rest res := by
        conv_lhs => unfold tokens_of_inner
        rw [if_pos hs]
      rw [hstep, ih res hres]
      have hsel : (sid :: rest).filter (fun s => decide (sS ≤ s)) =
          rest.filter (fun s => decide (sS ≤ s)) := by
        simp [List.filter_cons, hfil]
      rw [hsel]
    · have hfil : decide (sS ≤ sid) = true := by simp; omega
      have hstep : tokens_of_inner take tid sS (sid :: rest) res =
          (if take ≤ (res ++ [SftId.to_u64 ⟨tid, sid⟩]).length
            then (res ++ [SftId.to_u64 ⟨tid, sid⟩], true)
            else tokens_of_inner take tid sS rest (res ++ [SftId.to_u64 ⟨tid, sid⟩])) := by
        conv_lhs => unfold tokens_of_inner
        rw [if_neg hs]
      rw [hstep]
      have hsel : (sid :: rest).filter (fun s => decide (sS ≤ s)) =
          sid :: rest.filter (fun s => decide (sS ≤ s)) := by
        simp [List.filter_cons, hfil]
      rw [hsel, List.map_cons]
      by_cases hfull : take ≤ (res ++ [SftId.to_u64 ⟨tid, sid⟩]).length
      · rw [if_pos hfull]
        have hcond : take ≤ (res ++ SftId.to_u64 ⟨tid, sid⟩ ::
            (rest.filter (fun s => decide (sS ≤ s))).map
              (fun s => SftId.to_u64 ⟨tid, s⟩)).length := by
          simp at hfull ⊢
          omega
        rw [if_pos hcond]
        have hlen : take = (res ++ [SftId.to_u64 ⟨tid, sid⟩]).length := by
          simp at hfull ⊢
          omega
        conv_rhs => rw [List.append_cons res (SftId.to_u64 ⟨tid, sid⟩) _,
          hlen, List.take_left]
      · rw [if_neg hfull]
        have hlen2 : (res ++ [SftId.to_u64 ⟨tid, sid⟩]).length < take := by
          simp only [List.length_append, List.length_cons, List.length_nil] at hfull ⊢
          omega
        rw [ih (res ++ [SftId.to_u64 ⟨tid, sid⟩]) hlen2]
        simp [List.append_assoc]

theorem tokens_of_outer_spec (take : Nat) (m : List (Nat × List Nat)) :
    ∀ (sT sS : Nat) (res : List Nat), res.length < take →
      tokens_of_outer take sT sS m res =
        (res ++ packList (afterCursorT sT sS m)).take take := by
  induction m with
  | nil =>
    intro sT sS res hres
    unfold tokens_of_outer afterCursorT
    simp only [packList, List.map_nil, List.append_nil]
    exact (List.take_of_length_le (le_of_lt hres)).symm
  | cons p rest ih =>
    intro sT sS res hres
    obtain ⟨tid, sids⟩ := p
    unfold tokens_of_outer afterCursorT
    by_cases hskip : tid < sT
    · rw [if_pos hskip, if_pos hskip]
      exact ih sT sS res hres
    · rw [if_neg hskip, if_neg hskip]
      rw [tokens_of_inner_spec take tid sS sids res hres]
      have hpack : packList ((sids.filter (fun s => decide (sS ≤ s))).map
          (fun s => (tid, s)) ++ afterCursorT sT 1 rest) =
          (sids.filter (fun s => decide (sS ≤ s))).map
            (fun s => SftId.to_u64 ⟨tid, s⟩) ++ packList (afterCursorT sT 1 rest) := by
        unfold packList
        rw [List.map_append, List.map_map]
        rfl
      by_cases hfull : take ≤ (res ++ (sids.filter (fun s => decide (sS ≤ s))).map
          (fun s => SftId.to_u64 ⟨tid, s⟩)).length
      · rw [if_pos hfull]
        change (res ++ (sids.filter (fun s => decide (sS ≤ s))).map
          (fun s => SftId.to_u64 ⟨tid, s⟩)).take take = _
        rw [hpack, ← List.append_assoc]
        rw [List.take_append_of_le_length hfull]
      · rw [if_neg hfull]
        push_neg at hfull
        change tokens_of_outer take sT 1 rest _ = _
        rw [ih sT 1 _ hfull]
        rw [hpack, ← List.append_assoc]

theorem afterCursorT_all (sT : Nat) (m : List (Nat × List Nat))
    (hkeys : ∀ p ∈ m, ¬ p.fst < sT)
    (hsids : ∀ p ∈ m, ∀ s ∈ p.snd, 1 ≤ s) :
    afterCursorT sT 1 m = pairsOf m := by
  induction m with
  | nil => rfl
  | cons p rest ih =>
    obtain ⟨tid, sids⟩ := p
    unfold afterCursorT
    rw [if_neg (hkeys (tid, sids) (List.mem_cons_self _ _))]
    have hfil : sids.filter (fun s => decide (1 ≤ s)) = sids := by
      rw [List.filter_eq_self]
      intro s hsmem
      simpa using hsids (tid, sids) (List.mem_cons_self _ _) s hsmem
    rw [hfil, ih (fun q hq => hkeys q (List.mem_cons_of_mem _ hq))
      (fun q hq => hsids q (List.mem_cons_of_mem _ hq))]
    rfl

theorem mem_pairsOf (m : List (Nat × List Nat)) (g s : Nat) :
    (g, s) ∈ pairsOf m ↔ ∃ sids, (g, sids) ∈ m ∧ s ∈ sids := by
  unfold pairsOf
  constructor
  · intro h
    obtain ⟨p, hp, hmem⟩ := List.mem_flatMap.mp h
    obtain ⟨x, hx, hx2⟩ := List.mem_map.mp hmem
    obtain ⟨h1, h2⟩ := Prod.mk.injEq .. ▸ hx2
    exact ⟨p.snd, by rw [← h1]; exact (by simpa using hp), by rw [← h2]; exact hx⟩
  · intro ⟨sids, hmem, hs⟩
    exact List.mem_flatMap.mpr ⟨(g, sids), hmem, List.mem_map.mpr ⟨s, hs, rfl⟩⟩

theorem pairsOf_fst_mem_keys (m : List (Nat × List Nat)) (q : Nat × Nat)
    (h : q ∈ pairsOf m) : q.fst ∈ skeys m := by
  obtain ⟨g, s⟩ := q
  obtain ⟨sids, hmem, _⟩ := (mem_pairsOf m g s).mp h
  exact List.mem_map.mpr ⟨(g, sids), hmem, rfl⟩

theorem afterCursorT_cursor (m : List (Nat × List Nat)) (hwf : pagWf m)
    (g s : Nat) (hmem : (g, s) ∈ pairsOf m) :
    afterCursorT g (s + 1) m =
      (pairsOf m).filter (fun q => decide (pairLt (g, s) q)) := by
  induction m with
  | nil => simp [pairsOf] at hmem
  | cons p rest ih =>
    obtain ⟨tid, sids⟩ := p
    have hwfrest := pagWf_tail (tid, sids) rest hwf
    obtain ⟨hk, hprops⟩ := hwf
    have hkeysgt : ∀ k ∈ skeys rest, tid < k := (List.pairwise_cons.mp hk).1
    have hpairs : pairsOf ((tid, sids) :: rest) =
        sids.map (fun s2 => (tid, s2)) ++ pairsOf rest := rfl
    rcases List.mem_append.mp (hpairs ▸ hmem) with hin | hin
    · -- the cursor is in the head group: g = tid
      obtain ⟨x, hx, hx2⟩ := List.mem_map.mp hin
      have hg : tid = g := congrArg Prod.fst hx2
      have hs : x = s := congrArg Prod.snd hx2
      subst hg
      subst hs
      unfold afterCursorT
      rw [if_neg (lt_irrefl tid)]
      rw [hpairs, List.filter_append]
      have hpart1 : (sids.map (fun s2 => (tid, s2))).filter
          (fun q => decide (pairLt (tid, x) q)) =
          (sids.filter (fun s2 => decide (x + 1 ≤ s2))).map (fun s2 => (tid, s2)) := by
        rw [List.filter_map]
        congr 1
        apply List.filter_congr
        intro a _
        simp [pairLt, Function.comp]
        omega
      have hpart2 : (pairsOf rest).filter (fun q => decide (pairLt (tid, x) q)) =
          pairsOf rest := by
        rw [List.filter_eq_self]
        intro q hq
        have : tid < q.fst := hkeysgt q.fst (pairsOf_fst_mem_keys rest q hq)
        simp [pairLt]
        omega
      have hall : afterCursorT tid 1 rest = pairsOf rest := by
        apply afterCursorT_all
        · intro q hq
          have := hkeysgt q.fst (List.mem_map.mpr ⟨q, hq, rfl⟩)
          omega
        · intro q hq s2 hs2
          exact ((hwfrest.2 q hq).2.2.2 s2 hs2).1
      rw [hpart1, hpart2, hall]
    · -- the cursor is in a later group: tid < g
      have hglt : tid < g :=
        hkeysgt g (pairsOf_fst_mem_keys rest (g, s) hin)
      unfold afterCursorT
      rw [if_pos hglt]
      rw [hpairs, List.filter_append]
      have hpart1 : (sids.map (fun s2 => (tid, s2))).filter
          (fun q => decide (pairLt (g, s) q)) = [] := by
        rw [List.filter_eq_nil]
        intro q hq
        obtain ⟨x, _, hx2⟩ := List.mem_map.mp hq
        rw [← hx2]
        simp [pairLt]
        omega
      rw [hpart1, ih hwfrest hin]
      rfl

theorem pairsOf_pairwise (m : List (Nat × List Nat)) (hwf : pagWf m) :
    List.Pairwise pairLt (pairsOf m) := by
  induction m with
  | nil => exact List.Pairwise.nil
  | cons p rest ih =>
    obtain ⟨tid, sids⟩ := p
    have hwfrest := pagWf_tail (tid, sids) rest hwf
    obtain ⟨hk, hprops⟩ := hwf
    have hkeysgt : ∀ k ∈ skeys rest, tid < k := (List.pairwise_cons.mp hk).1
    have hpairs : pairsOf ((tid, sids) :: rest) =
        sids.map (fun s2 => (tid, s2)) ++ pairsOf rest := rfl
    rw [hpairs, List.pairwise_append]
    refine ⟨?_, ih hwfrest, ?_⟩
    · rw [List.pairwise_map]
      have hsorted := (hprops (tid, sids) (List.mem_cons_self _ _)).2.2.1
      exact hsorted.imp (fun hab => Or.inr ⟨rfl, hab⟩)
    · intro a ha b hb
      obtain ⟨x, _, hx2⟩ := List.mem_map.mp ha
      have : tid < b.fst := hkeysgt b.fst (pairsOf_fst_mem_keys rest b hb)
      rw [← hx2]
      exact Or.inl this

theorem pagWf_pair_bounds (m : List (Nat × List Nat)) (hwf : pagWf m)
    (g s : Nat) (hmem : (g, s) ∈ pairsOf m) :
    1 ≤ g ∧ g < U32SIZE ∧ 1 ≤ s ∧ s < U32MAX := by
  obtain ⟨sids, hgm, hsm⟩ := (mem_pairsOf m g s).mp hmem
  obtain ⟨h1, h2, _, h4⟩ := hwf.2 (g, sids) hgm
  exact ⟨h1, h2, (h4 s hsm).1, (h4 s hsm).2⟩

theorem to_u64_lt_iff (p q : Nat × Nat) (hp : p.snd < U32SIZE)
    (hq : q.snd < U32SIZE) :
    SftId.to_u64 ⟨p.fst, p.snd⟩ < SftId.to_u64 ⟨q.fst, q.snd⟩ ↔ pairLt p q := by
  have hL : SftId.to_u64 ⟨p.fst, p.snd⟩ = p.fst * U32SIZE + p.snd := rfl
  have hR : SftId.to_u64 ⟨q.fst, q.snd⟩ = q.fst * U32SIZE + q.snd := rfl
  rw [hL, hR]
  unfold pairLt U32SIZE at *
  constructor
  · intro h
    rcases Nat.lt_trichotomy p.fst q.fst with hlt | heq | hgt
    · exact Or.inl hlt
    · exact Or.inr ⟨heq, by omega⟩
    · exfalso; omega
  · rintro (hlt | ⟨heq, hs⟩) <;> omega

theorem packList_pairwise (m : List (Nat × List Nat)) (hwf : pagWf m) :
    List.Pairwise (· < ·) (packList (pairsOf m)) := by
  unfold packList
  rw [List.pairwise_map]
  apply (pairsOf_pairwise m hwf).imp_of_mem
  intro a b ha hb hab
  obtain ⟨g1, s1⟩ := a
  obtain ⟨g2, s2⟩ := b
  have hb1 := pagWf_pair_bounds m hwf g1 s1 ha
  have hb2 := pagWf_pair_bounds m hwf g2 s2 hb
  exact (to_u64_lt_iff (g1, s1) (g2, s2)
    (by simpa [U32SIZE, U32MAX] using hb1.2.2.2.trans_le (by norm_num [U32MAX, U32SIZE]))
    (by simpa [U32SIZE, U32MAX] using hb2.2.2.2.trans_le (by norm_num [U32MAX, U32SIZE]))).mpr hab

theorem from_to_u64 (g s : Nat) (hg : g < U32SIZE) (hs : s < U32SIZE) :
    SftId.from_u64 (nat_to_u64 (SftId.to_u64 ⟨g, s⟩)) = ⟨g, s⟩ := by
  have hbound : SftId.to_u64 ⟨g, s⟩ < 18446744073709551616 := by
    unfold SftId.to_u64 U32SIZE at *
    nlinarith
  unfold nat_to_u64
  rw [if_pos hbound]
  unfold SftId.from_u64 SftId.to_u64 U32SIZE at *
  have hdiv : (g * 4294967296 + s) / 4294967296 = g := by
    omega
  have hmod : (g * 4294967296 + s) % 4294967296 = s := by
    omega
  simp [hdiv, hmod]

/-- The first page of `icrc7_tokens_of`: with no cursor the result is the
`take`-long initial segment of the full packed enumeration. -/
theorem icrc7_tokens_of_first_page (m : List (Nat × List Nat)) (hwf : pagWf m)
    (take : Nat) (ht : 1 ≤ take) :
    icrc7_tokens_of (some m) none take = (packList (pairsOf m)).take take := by
  have hred : icrc7_tokens_of (some m) none take = tokens_of_outer take 1 1 m [] := rfl
  rw [hred]
  rw [tokens_of_outer_spec take m 1 1 [] (by simp only [List.length_nil]; omega)]
  rw [afterCursorT_all 1 m
    (fun p hp => by have := (hwf.2 p hp).1; omega)
    (fun p hp s hs => ((hwf.2 p hp).2.2.2 s hs).1)]
  rfl

/-- A cursor page of `icrc7_tokens_of`: when the cursor is an element of the
enumeration, the result is the `take`-long segment of the enumeration
strictly after the cursor. -/
theorem icrc7_tokens_of_cursor_page (m : List (Nat × List Nat)) (hwf : pagWf m)
    (take : Nat) (ht : 1 ≤ take) (g s : Nat) (hmem : (g, s) ∈ pairsOf m) :
    icrc7_tokens_of (some m) (some (SftId.to_u64 ⟨g, s⟩)) take =
      ((packList (pairsOf m)).filter
        (fun x => decide (SftId.to_u64 ⟨g, s⟩ < x))).take take := by
  obtain ⟨hg1, hg2, hs1, hs2⟩ := pagWf_pair_bounds m hwf g s hmem
  have hred : icrc7_tokens_of (some m) (some (SftId.to_u64 ⟨g, s⟩)) take =
      tokens_of_outer take
        ((SftId.from_u64 (nat_to_u64 (SftId.to_u64 ⟨g, s⟩))).next).tokenId
        ((SftId.from_u64 (nat_to_u64 (SftId.to_u64 ⟨g, s⟩))).next).sid m [] := rfl
  rw [hred]
  rw [from_to_u64 g s hg2 (by unfold U32SIZE U32MAX at *; omega)]
  have hnext : SftId.next ⟨g, s⟩ = ⟨g, s + 1⟩ := by
    unfold SftId.next u32satAdd
    have : min (s + 1) U32MAX = s + 1 := by
      unfold U32MAX at *; omega
    rw [this]
  rw [hnext]
  rw [tokens_of_outer_spec take m g (s + 1) [] (by simp only [List.length_nil]; omega)]
  rw [afterCursorT_cursor m hwf g s hmem]
  have hcomm : packList ((pairsOf m).filter (fun q => decide (pairLt (g, s) q))) =
      (packList (pairsOf m)).filter (fun x => decide (SftId.to_u64 ⟨g, s⟩ < x)) := by
    unfold packList
    rw [List.filter_map]
    congr 1
    apply List.filter_congr
    intro q hq
    obtain ⟨qg, qs⟩ := q
    have hqb := pagWf_pair_bounds m hwf qg qs hq
    simp only [Function.comp]
    rw [decide_eq_decide]
    exact (to_u64_lt_iff (g, s) (qg, qs)
      (by unfold U32SIZE U32MAX at *; omega)
      (by unfold U32SIZE U32MAX at *; omega)).symm
  rw [hcomm]
  rfl

theorem sorted_filter_lt_eq_drop (L : List Nat) (hs : List.Pairwise (· < ·) L) :
    ∀ (j p : Nat), L.get? j = some p →
      L.filter (fun x => decide (p < x)) = L.drop (j + 1) := by
  induction L with
  | nil => intro j p hj; simp at hj
  | cons a T ih =>
    intro j p hj
    obtain ⟨ha, hT⟩ := List.pairwise_cons.mp hs
    cases j with
    | zero =>
      have ha2 : a = p := by simpa using hj
      rw [List.filter_cons]
      have hfa : decide (p < a) = false := by simp [ha2]
      rw [hfa]
      simp only [Bool.false_eq_true, if_false, List.drop_succ_cons, List.drop_zero]
      rw [List.filter_eq_self]
      intro b hb
      have hab := ha b hb
      simp
      omega
    | succ k =>
      simp only [List.get?_cons_succ] at hj
      have hpa : a < p := ha p (List.get?_mem hj)
      rw [List.filter_cons]
      have hfa : decide (p < a) = false := by simp; omega
      rw [hfa]
      simp only [Bool.false_eq_true, if_false, List.drop_succ_cons]
      exact ih hT k p hj

/-- The successive pages of `icrc7_tokens_of`, each obtained by passing the
previous page's last element as the cursor; `fuel` bounds the recursion. -/
def tokensOfPages (m : List (Nat × List Nat)) (take : Nat) :
    Nat → Option Nat → List (List Nat)
  | 0, _ => []
  | fuel + 1, prev =>
    match (icrc7_tokens_of (some m) prev take).getLast? with
    | none => []
    | some last => icrc7_tokens_of (some m) prev take ::
        tokensOfPages m take fuel (some last)

theorem packList_mem_pair (m : List (Nat × List Nat)) (x : Nat)
    (hx : x ∈ packList (pairsOf m)) :
    ∃ g s, (g, s) ∈ pairsOf m ∧ x = SftId.to_u64 ⟨g, s⟩ := by
  obtain ⟨q, hq, hq2⟩ := List.mem_map.mp hx
  exact ⟨q.fst, q.snd, hq, hq2.symm⟩

theorem take_ne_nil_of_ne_nil (l : List Nat) (t : Nat) (hne : l ≠ [])
    (ht : 1 ≤ t) : l.take t ≠ [] := by
  cases l with
  | nil => exact absurd rfl hne
  | cons a T =>
    cases t with
    | zero => omega
    | succ k => simp

theorem tokensOfPages_join (m : List (Nat × List Nat)) (hwf : pagWf m)
    (take : Nat) (ht : 1 ≤ take) :
    ∀ (fuel k : Nat) (prev : Option Nat),
      icrc7_tokens_of (some m) prev take =
        ((packList (pairsOf m)).drop k).take take →
      (packList (pairsOf m)).length - k ≤ fuel →
      (tokensOfPages m take fuel prev).flatten = (packList (pairsOf m)).drop k := by
  intro fuel
  induction fuel with
  | zero =>
    intro k prev hpage hfuel
    have hdrop : (packList (pairsOf m)).drop k = [] :=
      List.drop_eq_nil_of_le (by omega)
    unfold tokensOfPages
    simp [hdrop]
  | succ fuel ih =>
    intro k prev hpage hfuel
    by_cases hdrop : (packList (pairsOf m)).drop k = []
    · unfold tokensOfPages
      rw [hpage, hdrop]
      simp
    · have hpagene : icrc7_tokens_of (some m) prev take ≠ [] := by
        rw [hpage]
        exact take_ne_nil_of_ne_nil _ take hdrop ht
      have hlast : ∃ p, (icrc7_tokens_of (some m) prev take).getLast? = some p := by
        cases hl : (icrc7_tokens_of (some m) prev take).getLast? with
        | none => exact absurd (List.getLast?_eq_none_iff.mp hl) hpagene
        | some p => exact ⟨p, rfl⟩
      obtain ⟨p, hp⟩ := hlast
      have hpagelen : (icrc7_tokens_of (some m) prev take).length =
          min take ((packList (pairsOf m)).length - k) := by
        rw [hpage, List.length_take, List.length_drop]
      have hlen1 : 1 ≤ (icrc7_tokens_of (some m) prev take).length := by
        cases hl : icrc7_tokens_of (some m) prev take with
        | nil => exact absurd hl hpagene
        | cons a T => simp
      -- the last element of the page sits at position k + len - 1 of the
      -- full enumeration
      have hidx : (packList (pairsOf m)).get?
          (k + (icrc7_tokens_of (some m) prev take).length - 1) = some p := by
        have h1 : (icrc7_tokens_of (some m) prev take).getLast? =
            (icrc7_tokens_of (some m) prev take).get?
              ((icrc7_tokens_of (some m) prev take).length - 1) :=
          List.getLast?_eq_get? _
        rw [h1, hpage] at hp
        have hlt : (icrc7_tokens_of (some m) prev take).length - 1 < take := by
          omega
        rw [hpage] at hlt ⊢
        rw [List.get?_take hlt] at hp
        rw [List.get?_drop] at hp
        have harith : k + (((packList (pairsOf m)).drop k).take take).length - 1 =
            k + ((((packList (pairsOf m)).drop k).take take).length - 1) := by
          have := hlen1
          rw [hpage] at this
          omega
        rw [harith]
        exact hp
      have hpmem : p ∈ packList (pairsOf m) := List.get?_mem hidx
      obtain ⟨g, s, hgs, hpeq⟩ := packList_mem_pair m p hpmem
      -- the next page is the next take-segment
      have harith2 : k + (icrc7_tokens_of (some m) prev take).length - 1 + 1 =
          k + (icrc7_tokens_of (some m) prev take).length := by omega
      have hnext : icrc7_tokens_of (some m) (some p) take =
          ((packList (pairsOf m)).drop
            (k + (icrc7_tokens_of (some m) prev take).length)).take take := by
        rw [hpeq, icrc7_tokens_of_cursor_page m hwf take ht g s hgs, ← hpeq,
          sorted_filter_lt_eq_drop (packList (pairsOf m)) (packList_pairwise m hwf)
            (k + (icrc7_tokens_of (some m) prev take).length - 1) p hidx, harith2]
      have hjoin := ih (k + (icrc7_tokens_of (some m) prev take).length) (some p)
        hnext (by omega)
      unfold tokensOfPages
      rw [hp]
      simp only [List.flatten_cons]
      rw [hjoin]
      have hsplit : ((packList (pairsOf m)).drop k).take take ++
          ((packList (pairsOf m)).drop k).drop take = (packList (pairsOf m)).drop k :=
        List.take_append_drop take _
      have hdd : ((packList (pairsOf m)).drop k).drop take =
          (packList (pairsOf m)).drop (k + take) := by
        rw [List.drop_drop]
      by_cases hcase : take ≤ (packList (pairsOf m)).length - k
      · have hlen2 : (icrc7_tokens_of (some m) prev take).length = take := by
          rw [hpagelen]; omega
        rw [hlen2, hpage, ← hdd, hsplit]
      · have hlen2 : (icrc7_tokens_of (some m) prev take).length =
            (packList (pairsOf m)).length - k := by
          rw [hpagelen]; omega
        have hempty : (packList (pairsOf m)).drop
            (k + (icrc7_tokens_of (some m) prev take).length) = [] := by
          apply List.drop_eq_nil_of_le
          omega
        rw [hempty, List.append_nil, hpage]
        exact List.take_of_length_le (by rw [List.length_drop]; omega)

theorem icrc7_tokens_loop_spec (take : Nat) (tids : List Nat) :
    ∀ res : List Nat, res.length < take →
      icrc7_tokens_loop take res tids =
        (res ++ tids.map (fun t => SftId.to_u64 ⟨t, 0⟩)).take take := by
  induction tids with
  | nil =>
    intro res hres
    unfold icrc7_tokens_loop
    simp only [List.map_nil, List.append_nil]
    exact (List.take_of_length_le (le_of_lt hres)).symm
  | cons tid rest ih =>
    intro res hres
    have hstep : icrc7_tokens_loop take res (tid :: rest) =
        (if take ≤ (res ++ [SftId.to_u64 ⟨tid, 0⟩]).length
          then res ++ [SftId.to_u64 ⟨tid, 0⟩]
          else icrc7_tokens_loop take (res ++ [SftId.to_u64 ⟨tid, 0⟩]) rest) := rfl
    rw [hstep, List.map_cons]
    by_cases hfull : take ≤ (res ++ [SftId.to_u64 ⟨tid, 0⟩]).length
    · rw [if_pos hfull]
      have hlen : take = (res ++ [SftId.to_u64 ⟨tid, 0⟩]).length := by
        simp only [List.length_append, List.length_cons, List.length_nil] at hfull ⊢
        omega
      conv_rhs => rw [List.append_cons res (SftId.to_u64 ⟨tid, 0⟩) _,
        hlen, List.take_left]
    · rw [if_neg hfull]
      have hlen2 : (res ++ [SftId.to_u64 ⟨tid, 0⟩]).length < take := by
        simp only [List.length_append, List.length_cons, List.length_nil] at hfull ⊢
        omega
      rw [ih _ hlen2]
      simp [List.append_assoc]

/-- C6 (amended): pagination over the two endpoints behaves asymmetrically.
For `icrc7_tokens_of` on a well-formed holder entry and any `take ≥ 1`: when
the cursor is an element of the enumeration, every returned id is strictly
greater than the cursor, and concatenating successive pages — passing each
page's last element as the next cursor — reproduces the full ascending
packed enumeration with no duplicates and no gaps. For `icrc7_tokens`,
however, the cursor is NOT exclusive: iteration restarts at the first id of
the cursor's own group (`SftId::from(prev).0` with no increment), so the
page equals the `take`-long segment of the group list from the cursor's
group inclusive, and a cursor of the form pack(g, 0) is returned again. -/
theorem C6_pagination_amended (m : List (Nat × List Nat)) (take fuel : Nat)
    (hwf : pagWf m) (ht : 1 ≤ take) :
    (∀ g s, (g, s) ∈ pairsOf m →
      ∀ x ∈ icrc7_tokens_of (some m) (some (SftId.to_u64 ⟨g, s⟩)) take,
        SftId.to_u64 ⟨g, s⟩ < x) ∧
    ((packList (pairsOf m)).length ≤ fuel →
      (tokensOfPages m take fuel none).flatten = packList (pairsOf m)) ∧
    (∀ max_tid g s0, g < U32SIZE → s0 < U32SIZE →
      icrc7_tokens max_tid (some (SftId.to_u64 ⟨g, s0⟩)) take =
        ((rangeIncl g max_tid).map (fun t => SftId.to_u64 ⟨t, 0⟩)).take take) := by
  refine ⟨?_, ?_, ?_⟩
  · intro g s hmem x hx
    rw [icrc7_tokens_of_cursor_page m hwf take ht g s hmem] at hx
    have hx2 := List.mem_of_mem_take hx
    have hx3 := List.of_mem_filter hx2
    simpa using hx3
  · intro hfuel
    have h0 := tokensOfPages_join m hwf take ht fuel 0 none
      (by rw [icrc7_tokens_of_first_page m hwf take ht]; simp)
      (by omega)
    simpa using h0
  · intro max_tid g s0 hg hs0
    have hred : icrc7_tokens max_tid (some (SftId.to_u64 ⟨g, s0⟩)) take =
        icrc7_tokens_loop take []
          (rangeIncl ((SftId.from_u64
            (nat_to_u64 (SftId.to_u64 ⟨g, s0⟩))).tokenId) max_tid) := rfl
    rw [hred, from_to_u64 g s0 hg hs0]
    exact icrc7_tokens_loop_spec take _ []
      (by simp only [List.length_nil]; omega)

/-- C6 counterexample: on a ledger with two token groups, `icrc7_tokens`
with cursor `prev = pack(1, 0)` (the id the endpoint itself emits for group
1) and `take = 2` returns `[pack(1, 0), pack(2, 0)]` — the cursor itself is
returned again, so the claim that every id returned with a cursor is
strictly greater than the cursor is false, and passing each page's last
element as the next cursor repeats ids instead of advancing. -/
theorem C6_tokens_cursor_not_exclusive :
    icrc7_tokens 2 (some (SftId.to_u64 ⟨1, 0⟩)) 2 =
      [SftId.to_u64 ⟨1, 0⟩, SftId.to_u64 ⟨2, 0⟩] ∧
    SftId.to_u64 ⟨1, 0⟩ ∈ icrc7_tokens 2 (some (SftId.to_u64 ⟨1, 0⟩)) 2 ∧
    ¬ SftId.to_u64 ⟨1, 0⟩ < SftId.to_u64 ⟨1, 0⟩ := by
  have hEq : icrc7_tokens 2 (some (SftId.to_u64 ⟨1, 0⟩)) 2 =
      [SftId.to_u64 ⟨1, 0⟩, SftId.to_u64 ⟨2, 0⟩] := rfl
  exact ⟨hEq, by rw [hEq]; exact List.mem_cons_self _ _, by exact lt_irrefl _⟩

/-- C6 witness: on the concrete holder entry with groups 1 (sub-items 1, 2)
and 3 (sub-item 1), pages of size 2 concatenate to the full enumeration, and
every id returned after cursor pack(1,1) is strictly greater than it. -/
theorem C6_pagination_amended_witness :
    (tokensOfPages [(1, [1, 2]), (3, [1])] 2 3 none).flatten =
      packList (pairsOf [(1, [1, 2]), (3, [1])]) ∧
    (∀ x ∈ icrc7_tokens_of (some [(1, [1, 2]), (3, [1])])
        (some (SftId.to_u64 ⟨1, 1⟩)) 2, SftId.to_u64 ⟨1, 1⟩ < x) ∧
    icrc7_tokens 2 (some (SftId.to_u64 ⟨1, 0⟩)) 2 =
      ((rangeIncl 1 2).map (fun t => SftId.to_u64 ⟨t, 0⟩)).take 2 := by
  have hwf0 : pagWf [(1, [1, 2]), (3, [1])] := by
    constructor
    · decide
    · decide
  refine ⟨?_, ?_, ?_⟩
  · exact (C6_pagination_amended [(1, [1, 2]), (3, [1])] 2 3 hwf0
      (by decide)).2.1 (by decide)
  · exact fun x hx => (C6_pagination_amended [(1, [1, 2]), (3, [1])] 2 3 hwf0
      (by decide)).1 1 1 (by decide) x hx
  · exact (C6_pagination_amended [(1, [1, 2]), (3, [1])] 2 3 hwf0
      (by decide)).2.2 2 1 0 (by decide) (by decide)
